import Mathlib

/-!
Verification development for the Sentry caching manager
(`src/sentry/db/models/manager.py`) and the Snuba event-storage backend
(`src/sentry/eventstore/snuba/backend.py`).

The Python code is shallowly embedded: model instances, cache state and the
cache backend become explicit Lean data; the signal hooks `__post_save`,
`__post_delete` and the read path `get_from_cache` become functions that
thread a `St` (cache state, tracked state, operation traces) and report a
raised Python exception as an `Option PyErr` / `Except PyErr` value, with the
final state returned alongside the outcome in every case.
-/

namespace Sentry

/-- A Python value as it appears in the manager's kwargs, model fields and
cache entries.  `vref pk` stands for a Django `Model` instance used as a
*value* (only its primary key is ever consulted: `__prep_value` and
`get_from_cache` both reduce it to `value.pk`). -/
inductive PyVal where
  | vint (n : Int)
  | vstr (s : String)
  | vnone
  | vref (pk : Option Int)
  deriving DecidableEq, Repr

/-- A Django model instance as seen by the manager: an identity (Python
`id()`), its model class name, the primary-key field name from `_meta`, the
primary-key value, the cacheable attribute values (keyed by attname, as
`getattr(instance, field.attname)` resolves them) and `_state.db`. -/
structure PyInst where
  objId : Nat
  modelName : String
  pkName : String
  pk : Option Int
  fields : List (String × PyVal)
  stateDb : Option String
  deriving DecidableEq, Repr

/-- A value stored in the cache backend: either a raw Python value
(pointer entries store the primary-key scalar) or a model instance
(value entries store the full snapshot). -/
inductive CVal where
  | raw (v : PyVal)
  | obj (i : PyInst)
  deriving DecidableEq, Repr

/-- Trace record of one mutation performed against the cache backend. -/
inductive CacheOp where
  | setOp (k : String) (ttl : Nat) (ver : Option String) (v : CVal)
  | delOp (k : String) (ver : Option String)
  deriving DecidableEq, Repr

/-- Python exceptions that can surface in the embedded code paths. -/
inductive PyErr where
  | notFound       -- ObjectDoesNotExist from QuerySet.get
  | valueError     -- the strict/DEBUG raise in get_from_cache
  | cacheError     -- an exception raised by the cache backend
  | castError      -- int(value) failing
  | stopIteration  -- next() on empty kwargs
  | fuelOut        -- artefact of the fuelled recursion, never hit with enough fuel
  deriving DecidableEq, Repr

/-- `model._meta` as the manager uses it: class name and primary-key name. -/
structure MMeta where
  name : String
  pkName : String
  deriving DecidableEq, Repr

/-- The configuration of a `BaseManager` instance. -/
structure BaseManager where
  meta : MMeta
  cache_fields : List String
  cache_ttl : Nat
  cache_version : Option String
  deriving DecidableEq, Repr

/-- The mutable world the manager code touches: the key/value cache backend
(`entries`, keyed by (key, version)), the thread-local tracked state
(`__cache`, keyed by instance identity), a trace of cache reads, a trace of
cache mutations, a trace of backing-store queries, and the sets of keys on
which the cache backend raises for set/delete. -/
structure St where
  entries : (String × Option String) → Option CVal
  tracked : Nat → Option (List (String × PyVal))
  reads : List String
  ops : List CacheOp
  dbCalls : List (List (String × PyVal))
  failSet : List String
  failDelete : List String

/-- The external collaborators of the read path: the key-derivation hash
(`md5_text(...).hexdigest()`), the backing store (`QuerySet.get`), the
read-router result and `settings.DEBUG`. -/
structure Env where
  hash : String → String
  dbGet : List (String × PyVal) → Option PyInst
  dbRead : Option String
  debug : Bool

/-- `cache.get(key, version=...)` — a pure read, traced. -/
def cacheGet (st : St) (k : String) (ver : Option String) : Option CVal × St :=
  (st.entries (k, ver), { st with reads := st.reads ++ [k] })

/-- `cache.set(key, value, timeout, version)` — raises on keys in `failSet`,
otherwise updates the entry and records the operation. -/
def cacheSet (st : St) (k : String) (ttl : Nat) (ver : Option String) (v : CVal) :
    Option PyErr × St :=
  if k ∈ st.failSet then (some .cacheError, st)
  else
    (none,
      { st with
        entries := fun kv => if kv = (k, ver) then some v else st.entries kv
        ops := st.ops ++ [.setOp k ttl ver v] })

/-- `cache.delete(key, version)` — raises on keys in `failDelete`, otherwise
removes the entry and records the operation. -/
def cacheDelete (st : St) (k : String) (ver : Option String) : Option PyErr × St :=
  if k ∈ st.failDelete then (some .cacheError, st)
  else
    (none,
      { st with
        entries := fun kv => if kv = (k, ver) then none else st.entries kv
        ops := st.ops ++ [.delOp k ver] })

/-- `six.text_type` / `smart_text` applied to a scalar (entity references are
reduced to their primary key first, mirroring `__prep_value`). -/
def renderVal : PyVal → String
  | .vint n => toString n
  | .vstr s => s
  | .vnone => "None"
  | .vref (some n) => toString n
  | .vref none => "None"

/-- `__prep_key`: map the pseudo-field `pk` to the model's primary-key name. -/
def prepKey (m : MMeta) (k : String) : String :=
  if k = "pk" then m.pkName else k

/-- `sorted(six.iteritems(kwargs))` — kwargs come from a dict, so items are
ordered by (unique) field name. -/
def pySorted (l : List (String × PyVal)) : List (String × PyVal) :=
  List.insertionSort (fun a b => a.1 ≤ b.1) l

/-- `make_key(model, prefix, kwargs)`: sort the kwargs, normalize each key via
`__prep_key` and each value via `__prep_value`/`smart_text`, join as
`field=value` pairs with `:`, and hash the joined string. -/
def make_key (hash : String → String) (m : MMeta) (pre : String)
    (kwargs : List (String × PyVal)) : String :=
  let bits := (pySorted kwargs).map (fun p => prepKey m p.1 ++ "=" ++ renderVal p.2)
  pre ++ ":" ++ m.name ++ ":" ++ hash (String.intercalate ":" bits)

/-- `__get_lookup_cache_key`. -/
def lookupCacheKey (hash : String → String) (m : MMeta)
    (kwargs : List (String × PyVal)) : String :=
  make_key hash m "modelcache" kwargs

/-- An `Option Int` primary key as the Python value `instance.pk`. -/
def pkToVal : Option Int → PyVal
  | some n => .vint n
  | none => .vnone

/-- `__value_for_field(instance, key)`: `instance.pk` for `pk`, otherwise
`getattr(instance, field.attname)` on the instance's attribute table. -/
def valueForField (i : PyInst) (k : String) : PyVal :=
  if k = "pk" then pkToVal i.pk
  else ((i.fields.find? (fun p => p.1 = k)).map Prod.snd).getD .vnone

/-- Python truthiness of `instance.pk` (`if instance.pk:`). -/
def truthyPk : Option Int → Bool
  | some n => n ≠ 0
  | none => false

/-- The pointer-write loop of `__post_save`: for every cacheable field other
than `pk`/the primary-key name, `cache.set` a pointer entry mapping the
field's current value to the primary-key scalar. -/
def setPointers (h : String → String) (mgr : BaseManager) (i : PyInst) :
    List String → St → Option PyErr × St
  | [], st => (none, st)
  | k :: ks, st =>
    if k = "pk" ∨ k = i.pkName then setPointers h mgr i ks st
    else
      match cacheSet st (lookupCacheKey h mgr.meta [(k, valueForField i k)])
          mgr.cache_ttl mgr.cache_version (.raw (pkToVal i.pk)) with
      | (some e, st') => (some e, st')
      | (none, st') => setPointers h mgr i ks st'

/-- The value-entry write of `__post_save`: `_state.db` is cleared on the
snapshot before it is stored, and the `cache.set` is wrapped in
`try/except Exception` — a failure is logged and swallowed. -/
def valueEntryWrite (h : String → String) (mgr : BaseManager) (i : PyInst)
    (st : St) : St :=
  (cacheSet st (lookupCacheKey h mgr.meta [(i.pkName, pkToVal i.pk)])
    mgr.cache_ttl mgr.cache_version (.obj { i with stateDb := none })).2

/-- The stale-pointer loop of `__post_save`: for every cacheable field present
in the tracked snapshot whose prior value differs from the current value,
`cache.delete` the pointer entry keyed by the *old* value. -/
def staleDeletes (h : String → String) (mgr : BaseManager) (i : PyInst)
    (snap : List (String × PyVal)) : List String → St → Option PyErr × St
  | [], st => (none, st)
  | k :: ks, st =>
    match snap.find? (fun p => p.1 = k) with
    | none => staleDeletes h mgr i snap ks st
    | some p =>
      if p.2 = valueForField i k then staleDeletes h mgr i snap ks st
      else
        match cacheDelete st (lookupCacheKey h mgr.meta [(k, p.2)])
            mgr.cache_version with
        | (some e, st') => (some e, st')
        | (none, st') => staleDeletes h mgr i snap ks st'

/-- `__cache_state`: when the instance has a (truthy) primary key, refresh the
tracked snapshot of every cacheable field for this instance identity. -/
def cacheState (mgr : BaseManager) (i : PyInst) (st : St) : St :=
  if truthyPk i.pk then
    { st with
      tracked := fun n =>
        if n = i.objId then some (mgr.cache_fields.map (fun f => (f, valueForField i f)))
        else st.tracked n }
  else st

/-- `__post_save`: write pointer entries, write the value entry (failures
swallowed), delete stale pointers for changed fields when a tracked snapshot
exists, then refresh the tracked snapshot. -/
def post_save (h : String → String) (mgr : BaseManager) (i : PyInst) (st : St) :
    Option PyErr × St :=
  match setPointers h mgr i mgr.cache_fields st with
  | (some e, st₁) => (some e, st₁)
  | (none, st₁) =>
    match
      (match (valueEntryWrite h mgr i st₁).tracked i.objId with
       | none => (none, valueEntryWrite h mgr i st₁)
       | some snap =>
         staleDeletes h mgr i snap mgr.cache_fields (valueEntryWrite h mgr i st₁)) with
    | (some e, st₃) => (some e, st₃)
    | (none, st₃) => (none, cacheState mgr i st₃)

/-- The pointer-delete loop of `__post_delete`: delete every cacheable-field
pointer entry (keyed by current value) except the primary key. -/
def delPointers (h : String → String) (mgr : BaseManager) (i : PyInst) :
    List String → St → Option PyErr × St
  | [], st => (none, st)
  | k :: ks, st =>
    if k = "pk" ∨ k = i.pkName then delPointers h mgr i ks st
    else
      match cacheDelete st (lookupCacheKey h mgr.meta [(k, valueForField i k)])
          mgr.cache_version with
      | (some e, st') => (some e, st')
      | (none, st') => delPointers h mgr i ks st'

/-- `__post_delete`: delete the pointer entries, then the value entry. -/
def post_delete (h : String → String) (mgr : BaseManager) (i : PyInst) (st : St) :
    Option PyErr × St :=
  match delPointers h mgr i mgr.cache_fields st with
  | (some e, st₁) => (some e, st₁)
  | (none, st₁) =>
    match cacheDelete st₁ (lookupCacheKey h mgr.meta [(i.pkName, pkToVal i.pk)])
        mgr.cache_version with
    | (some e, st₂) => (some e, st₂)
    | (none, st₂) => (none, st₂)

/-- `self.get(**kwargs)`: query the backing store, raising `NotFound` when no
row matches; the query itself is traced in `dbCalls`. -/
def plainGet (env : Env) (st : St) (kwargs : List (String × PyVal)) :
    Except PyErr PyInst × St :=
  let st' := { st with dbCalls := st.dbCalls ++ [kwargs] }
  match env.dbGet kwargs with
  | some r => (.ok r, st')
  | none => (.error .notFound, st')

/-- The key normalization of `get_from_cache`: `pk` → the primary-key name,
then strip a trailing `__exact` (keeping the part before its first
occurrence, as `key.split('__exact', 1)[0]` does). -/
def normKey (pkName k₀ : String) : String :=
  let k₁ := if k₀ = "pk" then pkName else k₀
  if k₁.endsWith "__exact" then (k₁.splitOn "__exact").headD k₁ else k₁

/-- The value normalization of `get_from_cache`: a model reference becomes its
primary key. -/
def normVal : PyVal → PyVal
  | .vref p => pkToVal p
  | v => v

/-- A cached value handed back into Python: a raw value stays itself, a cached
instance behaves as a model reference (only its `pk` is consulted further). -/
def cvalToPyVal : CVal → PyVal
  | .raw v => v
  | .obj i => .vref i.pk

/-- Python `int(value)`, `none` meaning the call raises. -/
def pyToInt : PyVal → Option Int
  | .vint n => some n
  | .vstr s => s.toInt?
  | .vnone => none
  | .vref _ => none

/-- The cache-miss continuation of `get_from_cache`: fetch from the backing
store (raising `NotFound` on a miss, caching nothing), and on success run
`__post_save` synchronously on the loaded instance before returning it. -/
def missPath (env : Env) (mgr : BaseManager)
    (kwargs : List (String × PyVal)) (st₁ : St) : Except PyErr PyInst × St :=
  match plainGet env st₁ kwargs with
  | (.error e, st₂) => (.error e, st₂)
  | (.ok r, st₂) =>
    match post_save env.hash mgr r st₂ with
    | (some e, st₃) => (.error e, st₃)
    | (none, st₃) => (.ok r, st₃)

mutual

/-- `get_from_cache(**kwargs)`: the read-through lookup.  The recursion of the
secondary-key hit path is fuelled; any claim below supplies enough fuel that
`fuelOut` is never reached. -/
def get_from_cache (env : Env) (mgr : BaseManager) :
    Nat → List (String × PyVal) → St → Except PyErr PyInst × St
  | 0, _, st => (.error .fuelOut, st)
  | fuel + 1, kwargs, st =>
    if mgr.cache_fields = [] ∨ kwargs.length > 1 then plainGet env st kwargs
    else
      match kwargs with
      | [] => (.error .stopIteration, st)
      | (k₀, v₀) :: _ =>
        let pkName := mgr.meta.pkName
        let k := normKey pkName k₀
        let v := normVal v₀
        if k ∈ mgr.cache_fields ∨ k = pkName then
          let ck := lookupCacheKey env.hash mgr.meta [(k, v)]
          match cacheGet st ck mgr.cache_version with
          | (none, st₁) => missPath env mgr kwargs st₁
          | (some rv, st₁) => hitPath env mgr fuel kwargs k v rv st₁
        else plainGet env st kwargs
termination_by fuel _ _ => 2 * fuel

/-- The cache-hit continuation of `get_from_cache`: recurse through the
primary key on a secondary-key hit, otherwise validate type and primary key,
failing loudly under `DEBUG` and falling back to an uncached lookup
otherwise. -/
def hitPath (env : Env) (mgr : BaseManager) (fuel : Nat)
    (kwargs : List (String × PyVal)) (k : String) (v : PyVal) (rv : CVal)
    (st₁ : St) : Except PyErr PyInst × St :=
  let pkName := mgr.meta.pkName
  if k ≠ pkName then
    get_from_cache env mgr fuel [(pkName, cvalToPyVal rv)] st₁
  else
    match rv with
    | .raw _ =>
      if env.debug then (.error .valueError, st₁) else plainGet env st₁ kwargs
    | .obj inst =>
      if inst.modelName ≠ mgr.meta.name then
        if env.debug then (.error .valueError, st₁) else plainGet env st₁ kwargs
      else
        match pyToInt v with
        | none => (.error .castError, st₁)
        | some n =>
          if inst.pk ≠ some n then
            if env.debug then (.error .valueError, st₁) else plainGet env st₁ kwargs
          else (.ok { inst with stateDb := env.dbRead }, st₁)
termination_by 2 * fuel + 1

end

/-- Modelled from the spec: `BoundedBigIntegerField.MAX_VALUE` from
`sentry.db.models.fields` is not under `src/`; the spec calls it "the maximum
bounded integer value" of the big-integer primary-key field, i.e. the largest
signed 64-bit value. -/
def MAX_VALUE : Int := 9223372036854775807

/-- Modelled from the spec: `normalize_event_id` from
`sentry.utils.validators` is not under `src/`; the spec says it normalizes the
input "as a hex identifier (fixed-length, validated format)", returning the
canonical 32-character lowercase hex form, or nothing when the input does not
validate. -/
def normalize_event_id (s : String) : Option String :=
  let t := (s.replace "-" "").toLower
  if t.length = 32 ∧ t.all (fun c => c.isDigit ∨ ('a' ≤ c ∧ c ≤ 'f')) then some t
  else none

/-- Python `str.isdigit()` for ASCII strings: nonempty and all digits. -/
def isDigits (s : String) : Bool :=
  s ≠ "" ∧ s.all Char.isDigit

/-- `int(...)` on an all-digit string. -/
def digitsToInt (s : String) : Int :=
  (s.toNat?.getD 0 : Nat)

/-- `EventManager.from_event_id(id_or_event_id, project_id)`: try the primary
key for bounded numeric inputs (NotFound swallowed), then, if a project id is
available, the input normalizes as an event id and no primary-key result was
found, try `(event_id, project_id)` (NotFound swallowed again). -/
def from_event_id (env : Env) (idOrEventId : String) (projectId : Option Int) :
    Option PyInst :=
  let event₀ : Option PyInst :=
    if isDigits idOrEventId ∧ digitsToInt idOrEventId ≤ MAX_VALUE then
      match projectId with
      | none => env.dbGet [("id", .vstr idOrEventId)]
      | some pid => env.dbGet [("id", .vstr idOrEventId), ("project_id", .vint pid)]
    else none
  let eventId := normalize_event_id idOrEventId
  match event₀ with
  | some e => some e
  | none =>
    match projectId, eventId with
    | some pid, some eid =>
      if eid ≠ "" then env.dbGet [("event_id", .vstr eid), ("project_id", .vint pid)]
      else none
    | _, _ => none

/-- A value appearing on the right-hand side of a Snuba condition. -/
inductive SVal where
  | i (n : Int)
  | s (t : String)
  deriving DecidableEq, Repr

/-- A Snuba condition: either a `[column, operator, literal]` triple or a
nested list of triples, which Snuba treats as a disjunction.  The outer
conditions list is a conjunction. -/
inductive SCond where
  | cmp (col : String) (op : String) (v : SVal)
  | disj (cs : List SCond)

/-- The reference event of a neighbor lookup: `event.timestamp`,
`event.datetime` (the same instant in the query's time type) and
`event.event_id`. -/
structure SEvent where
  timestamp : Int
  datetime : Int
  event_id : String
  deriving DecidableEq, Repr

/-- A row of a Snuba neighbor-query result. -/
structure SRow where
  project_id : Int
  event_id : String
  deriving DecidableEq, Repr

/-- A Snuba query result: either flags an error or carries rows. -/
structure SResult where
  hasError : Bool
  data : List SRow
  deriving DecidableEq, Repr

/-- Filter keys passed through to `snuba.raw_query` unchanged. -/
def FilterKeys := List (String × List Int)

/-- The full argument record handed to `snuba.raw_query`. -/
structure SnubaArgs where
  selected_columns : List String
  limit : Nat
  referrer : String
  startT : Int
  endT : Int
  conditions : List SCond
  filter_keys : Option FilterKeys
  orderby : List String

/-- The analytics backend as an external collaborator. -/
structure SnubaEnv where
  raw_query : SnubaArgs → SResult
  now : Int

/-- `__get_next_or_prev_event_id`: run the query; on an error marker or an
empty row set return `None`, otherwise return the first row's
`(project_id, event_id)` as text. -/
def get_next_or_prev_event_id (env : SnubaEnv) (args : SnubaArgs) :
    Option (String × String) :=
  let result := env.raw_query args
  if result.hasError ∨ result.data.length = 0 then none
  else
    match result.data with
    | [] => none
    | row :: _ => some (toString row.project_id, row.event_id)

/-- The time condition `get_next_event_id` builds: at-or-after the reference
timestamp, and strictly after in (timestamp, event_id) order. -/
def timeConditionNext (e : SEvent) : List SCond :=
  [.cmp "timestamp" ">=" (.i e.timestamp),
   .disj [.cmp "timestamp" ">" (.i e.timestamp), .cmp "event_id" ">" (.s e.event_id)]]

/-- The time condition `get_prev_event_id` builds: at-or-before the reference
timestamp, and strictly before in (timestamp, event_id) order. -/
def timeConditionPrev (e : SEvent) : List SCond :=
  [.cmp "timestamp" "<=" (.i e.timestamp),
   .disj [.cmp "timestamp" "<" (.i e.timestamp), .cmp "event_id" "<" (.s e.event_id)]]

/-- `conditions = conditions or []` followed by `conditions.extend(tc)`: the
conditions list actually queried.  A non-empty caller list is extended in
place; `None` or an empty (falsy) list is replaced by a fresh list. -/
def extendedConditions (conditions : Option (List SCond)) (tc : List SCond) :
    List SCond :=
  match conditions with
  | none => tc
  | some [] => tc
  | some l => l ++ tc

/-- The content of the *caller's* conditions list object after
`conditions = conditions or []; conditions.extend(tc)`: only a non-empty
caller list aliases the extended list. -/
def callerConditionsAfter (conditions : Option (List SCond)) (tc : List SCond) :
    Option (List SCond) :=
  match conditions with
  | none => none
  | some [] => some []
  | some l => some (l ++ tc)

/-- `get_next_event_id(event, conditions, filter_keys)`.  The second component
of the result is the content of the caller's conditions list after the call,
making the in-place `extend` observable. -/
def get_next_event_id (env : SnubaEnv) (event : Option SEvent)
    (conditions : Option (List SCond)) (filterKeys : Option FilterKeys) :
    Option (String × String) × Option (List SCond) :=
  match event with
  | none => (none, conditions)
  | some e =>
    let tc := timeConditionNext e
    (get_next_or_prev_event_id env
      { selected_columns := ["event_id", "project_id"]
        limit := 1
        referrer := "eventstore.get_next_or_prev_event_id"
        startT := e.datetime
        endT := env.now
        conditions := extendedConditions conditions tc
        filter_keys := filterKeys
        orderby := ["timestamp", "event_id"] },
     callerConditionsAfter conditions tc)

/-- `get_prev_event_id(event, conditions, filter_keys)`. -/
def get_prev_event_id (env : SnubaEnv) (event : Option SEvent)
    (conditions : Option (List SCond)) (filterKeys : Option FilterKeys) :
    Option (String × String) × Option (List SCond) :=
  match event with
  | none => (none, conditions)
  | some e =>
    let tc := timeConditionPrev e
    (get_next_or_prev_event_id env
      { selected_columns := ["event_id", "project_id"]
        limit := 1
        referrer := "eventstore.get_next_or_prev_event_id"
        startT := 0
        endT := e.datetime
        conditions := extendedConditions conditions tc
        filter_keys := filterKeys
        orderby := ["-timestamp", "-event_id"] },
     callerConditionsAfter conditions tc)

/-- An event row as the Snuba conditions see it: the two columns the
neighbor-lookup conditions mention. -/
structure SKey where
  timestamp : Int
  event_id : String
  deriving DecidableEq, Repr

/-- Evaluate one comparison triple against a row. -/
def evalCmp (r : SKey) (col op : String) (v : SVal) : Bool :=
  match col, v with
  | "timestamp", .i n =>
    match op with
    | ">=" => r.timestamp ≥ n
    | ">" => r.timestamp > n
    | "<=" => r.timestamp ≤ n
    | "<" => r.timestamp < n
    | _ => false
  | "event_id", .s t =>
    match op with
    | ">=" => t ≤ r.event_id
    | ">" => t < r.event_id
    | "<=" => r.event_id ≤ t
    | "<" => r.event_id < t
    | _ => false
  | _, _ => false

mutual

/-- Evaluate one Snuba condition against a row (a nested list is an OR). -/
def evalCond (r : SKey) : SCond → Bool
  | .cmp col op v => evalCmp r col op v
  | .disj cs => evalCondAny r cs

/-- OR over a list of conditions. -/
def evalCondAny (r : SKey) : List SCond → Bool
  | [] => false
  | c :: cs => evalCond r c || evalCondAny r cs

end

/-- AND over a top-level conditions list. -/
def evalConds (r : SKey) : List SCond → Bool
  | [] => true
  | c :: cs => evalCond r c && evalConds r cs

/-! ### Concrete objects used by witnesses -/

/-- A concrete injective stand-in for the key hash. -/
def hashId : String → String := fun s => s

/-- A concrete manager configuration: model `Org` with primary key `id` and
one cacheable field `slug`. -/
def orgMgr : BaseManager :=
  { meta := { name := "Org", pkName := "id" }
    cache_fields := ["slug"]
    cache_ttl := 300
    cache_version := none }

/-- A concrete saved instance of `Org`. -/
def orgInst : PyInst :=
  { objId := 1, modelName := "Org", pkName := "id", pk := some 5
    fields := [("slug", .vstr "bar")], stateDb := some "default" }

/-- The empty world state. -/
def emptySt : St :=
  { entries := fun _ => none, tracked := fun _ => none, reads := [], ops := []
    dbCalls := [], failSet := [], failDelete := [] }

/-- A tracked state recording `slug = "foo"` for the concrete instance. -/
def stTracked : St :=
  { emptySt with tracked := fun n => if n = 1 then some [("slug", .vstr "foo")] else none }

/-- A state on which the cache backend raises for the `slug` pointer key. -/
def stPtrFail : St :=
  { emptySt with
    failSet := [lookupCacheKey hashId orgMgr.meta [("slug", PyVal.vstr "bar")]] }

/-- A state on which the cache backend raises only for the value-entry key. -/
def stValFail : St :=
  { emptySt with
    failSet := [lookupCacheKey hashId orgMgr.meta [("id", pkToVal orgInst.pk)]] }

/-- Is this cached value an instance of the manager's model
(`isinstance(retval, self.model)`)? -/
def isModelInstance (mgr : BaseManager) : CVal → Bool
  | .obj i => i.modelName = mgr.meta.name
  | .raw _ => false

/-- A concrete backing store that finds `orgInst` under its slug. -/
def envMiss : Env :=
  { hash := hashId
    dbGet := fun kws => if kws = [("slug", PyVal.vstr "bar")] then some orgInst else none
    dbRead := some "replica"
    debug := false }

/-- The cache state after saving `orgInst` into an empty cache. -/
def savedSt : St := (post_save hashId orgMgr orgInst emptySt).2

/-- A poisoned cache: the value entry under `id=5` holds an instance whose
primary key is 7. -/
def stPoison : St :=
  { emptySt with
    entries := fun kv =>
      if kv = (lookupCacheKey hashId orgMgr.meta [("id", PyVal.vint 5)],
          orgMgr.cache_version) then
        some (.obj { orgInst with pk := some 7 })
      else none }

/-- The claim's rendering of `from_event_id`: a primary-key attempt for
bounded all-digit inputs (NotFound swallowed), a hex attempt only when the
input normalizes, a partition id is available and the primary-key attempt
produced nothing (NotFound swallowed again), and the first success wins. -/
def from_event_id_spec (env : Env) (s : String) (projectId : Option Int) :
    Option PyInst :=
  let pkAttempt : Option PyInst :=
    if isDigits s ∧ digitsToInt s ≤ MAX_VALUE then
      env.dbGet (match projectId with
        | none => [("id", .vstr s)]
        | some p => [("id", .vstr s), ("project_id", .vint p)])
    else none
  let hexAttempt : Option PyInst :=
    match normalize_event_id s, projectId with
    | some eid, some p =>
      if pkAttempt = none then
        env.dbGet [("event_id", .vstr eid), ("project_id", .vint p)]
      else none
    | _, _ => none
  pkAttempt <|> hexAttempt

/-- An analytics backend whose every query reports an error. -/
def senvErr : SnubaEnv :=
  { raw_query := fun _ => { hasError := true, data := [] }, now := 100 }

/-- A concrete reference event. -/
def ev0 : SEvent := { timestamp := 1, datetime := 1, event_id := "a" }

/-- A concrete argument record. -/
def args0 : SnubaArgs :=
  { selected_columns := ["event_id", "project_id"], limit := 1
    referrer := "eventstore.get_next_or_prev_event_id"
    startT := 0, endT := 100
    conditions := [], filter_keys := none, orderby := ["timestamp", "event_id"] }

/-! ### Sorting: `make_key` is invariant under kwargs ordering -/

lemma pySorted_eq_of_perm {l₁ l₂ : List (String × PyVal)}
    (hp : l₁.Perm l₂) (hn : (l₁.map Prod.fst).Nodup) :
    pySorted l₁ = pySorted l₂ := by
  haveI htot : IsTotal (String × PyVal) (fun a b => a.1 ≤ b.1) :=
    ⟨fun a b => le_total _ _⟩
  haveI htr : IsTrans (String × PyVal) (fun a b => a.1 ≤ b.1) :=
    ⟨fun _ _ _ hab hbc => le_trans hab hbc⟩
  haveI hanti : IsAntisymm (String × PyVal) (fun a b => a.1 < b.1) :=
    ⟨fun _ _ h₁ h₂ => absurd (lt_trans h₁ h₂) (lt_irrefl _)⟩
  have p₁ : List.Perm (pySorted l₁) l₁ := List.perm_insertionSort _ _
  have p₂ : List.Perm (pySorted l₂) l₂ := List.perm_insertionSort _ _
  have hp' : List.Perm (pySorted l₁) (pySorted l₂) := p₁.trans (hp.trans p₂.symm)
  have hn₁ : ((pySorted l₁).map Prod.fst).Nodup := ((p₁.map Prod.fst).nodup_iff).mpr hn
  have hn₂ : ((pySorted l₂).map Prod.fst).Nodup :=
    ((p₂.map Prod.fst).nodup_iff).mpr (((hp.map Prod.fst).nodup_iff).mp hn)
  have hs₁ : List.Sorted (fun a b : String × PyVal => a.1 ≤ b.1) (pySorted l₁) :=
    List.sorted_insertionSort _ _
  have hs₂ : List.Sorted (fun a b : String × PyVal => a.1 ≤ b.1) (pySorted l₂) :=
    List.sorted_insertionSort _ _
  have hne₁ : (pySorted l₁).Pairwise (fun a b => a.1 ≠ b.1) := by
    simpa [List.Nodup, List.pairwise_map] using hn₁
  have hne₂ : (pySorted l₂).Pairwise (fun a b => a.1 ≠ b.1) := by
    simpa [List.Nodup, List.pairwise_map] using hn₂
  have hlt₁ : List.Sorted (fun a b : String × PyVal => a.1 < b.1) (pySorted l₁) :=
    (hs₁.and hne₁).imp (fun h => lt_of_le_of_ne h.1 h.2)
  have hlt₂ : List.Sorted (fun a b : String × PyVal => a.1 < b.1) (pySorted l₂) :=
    (hs₂.and hne₂).imp (fun h => lt_of_le_of_ne h.1 h.2)
  exact List.eq_of_perm_of_sorted hp' hlt₁ hlt₂

/-- C6: `make_key` is deterministic and invariant under the input ordering of
kwargs — any two orderings of the same (field, value) pairs produce the
identical key string — with the field name `pk` mapped to the model's actual
primary-key field name and entity-reference values reduced to their
primary-key scalar before hashing. -/
theorem C6_make_key_order_invariant :
    (∀ (h : String → String) (m : MMeta) (p : String)
        (kw₁ kw₂ : List (String × PyVal)),
        kw₁.Perm kw₂ → (kw₁.map Prod.fst).Nodup →
        make_key h m p kw₁ = make_key h m p kw₂) ∧
    (∀ (h : String → String) (m : MMeta) (p : String) (v : PyVal),
        make_key h m p [("pk", v)] = make_key h m p [(m.pkName, v)]) ∧
    (∀ (h : String → String) (m : MMeta) (p : String) (k : String) (n : Int),
        make_key h m p [(k, .vref (some n))] = make_key h m p [(k, .vint n)]) := by
  refine ⟨fun h m p kw₁ kw₂ hp hn => ?_, fun h m p v => ?_, fun h m p k n => ?_⟩
  · unfold make_key
    rw [pySorted_eq_of_perm hp hn]
  · simp [make_key, pySorted, List.insertionSort, prepKey]
  · simp [make_key, pySorted, List.insertionSort, renderVal]

/-! ### Invariance lemmas for the save/delete stages -/

lemma setPointers_invar (h : String → String) (mgr : BaseManager) (i : PyInst)
    (l : List String) : ∀ st : St,
    ((setPointers h mgr i l st).2).tracked = st.tracked ∧
    ((setPointers h mgr i l st).2).reads = st.reads ∧
    ((setPointers h mgr i l st).2).failSet = st.failSet ∧
    ((setPointers h mgr i l st).2).failDelete = st.failDelete ∧
    ((setPointers h mgr i l st).2).dbCalls = st.dbCalls := by
  induction l with
  | nil => intro st; exact ⟨rfl, rfl, rfl, rfl, rfl⟩
  | cons k ks ih =>
    intro st
    by_cases hpk : k = "pk" ∨ k = i.pkName
    · simp only [setPointers, if_pos hpk]
      exact ih st
    · simp only [setPointers, if_neg hpk, cacheSet]
      by_cases hf : lookupCacheKey h mgr.meta [(k, valueForField i k)] ∈ st.failSet
      · rw [if_pos hf]
        exact ⟨rfl, rfl, rfl, rfl, rfl⟩
      · rw [if_neg hf]
        exact ih _

lemma valueEntryWrite_invar (h : String → String) (mgr : BaseManager)
    (i : PyInst) (st : St) :
    (valueEntryWrite h mgr i st).tracked = st.tracked ∧
    (valueEntryWrite h mgr i st).reads = st.reads ∧
    (valueEntryWrite h mgr i st).failSet = st.failSet ∧
    (valueEntryWrite h mgr i st).failDelete = st.failDelete ∧
    (valueEntryWrite h mgr i st).dbCalls = st.dbCalls := by
  unfold valueEntryWrite cacheSet
  by_cases hf : lookupCacheKey h mgr.meta [(i.pkName, pkToVal i.pk)] ∈ st.failSet
  · rw [if_pos hf]
    exact ⟨rfl, rfl, rfl, rfl, rfl⟩
  · rw [if_neg hf]
    exact ⟨rfl, rfl, rfl, rfl, rfl⟩

lemma staleDeletes_invar (h : String → String) (mgr : BaseManager) (i : PyInst)
    (snap : List (String × PyVal)) (l : List String) : ∀ st : St,
    ((staleDeletes h mgr i snap l st).2).tracked = st.tracked ∧
    ((staleDeletes h mgr i snap l st).2).reads = st.reads ∧
    ((staleDeletes h mgr i snap l st).2).failSet = st.failSet ∧
    ((staleDeletes h mgr i snap l st).2).failDelete = st.failDelete ∧
    ((staleDeletes h mgr i snap l st).2).dbCalls = st.dbCalls := by
  induction l with
  | nil => intro st; exact ⟨rfl, rfl, rfl, rfl, rfl⟩
  | cons k ks ih =>
    intro st
    rcases hfind : snap.find? (fun p => p.1 = k) with _ | p
    · simp only [staleDeletes, hfind]
      exact ih st
    · simp only [staleDeletes, hfind]
      by_cases hch : p.2 = valueForField i k
      · simp only [if_pos hch]
        exact ih st
      · simp only [if_neg hch, cacheDelete]
        by_cases hf : lookupCacheKey h mgr.meta [(k, p.2)] ∈ st.failDelete
        · rw [if_pos hf]
          exact ⟨rfl, rfl, rfl, rfl, rfl⟩
        · rw [if_neg hf]
          exact ih _

lemma delPointers_invar (h : String → String) (mgr : BaseManager) (i : PyInst)
    (l : List String) : ∀ st : St,
    ((delPointers h mgr i l st).2).tracked = st.tracked ∧
    ((delPointers h mgr i l st).2).reads = st.reads ∧
    ((delPointers h mgr i l st).2).failSet = st.failSet ∧
    ((delPointers h mgr i l st).2).failDelete = st.failDelete ∧
    ((delPointers h mgr i l st).2).dbCalls = st.dbCalls := by
  induction l with
  | nil => intro st; exact ⟨rfl, rfl, rfl, rfl, rfl⟩
  | cons k ks ih =>
    intro st
    by_cases hpk : k = "pk" ∨ k = i.pkName
    · simp only [delPointers, if_pos hpk]
      exact ih st
    · simp only [delPointers, if_neg hpk, cacheDelete]
      by_cases hf : lookupCacheKey h mgr.meta [(k, valueForField i k)] ∈ st.failDelete
      · rw [if_pos hf]
        exact ⟨rfl, rfl, rfl, rfl, rfl⟩
      · rw [if_neg hf]
        exact ih _

lemma cacheState_entries (mgr : BaseManager) (i : PyInst) (st : St) :
    (cacheState mgr i st).entries = st.entries ∧
    (cacheState mgr i st).reads = st.reads ∧
    (cacheState mgr i st).ops = st.ops := by
  unfold cacheState
  by_cases ht : truthyPk i.pk = true
  · rw [if_pos ht]
    exact ⟨rfl, rfl, rfl⟩
  · rw [if_neg ht]
    exact ⟨rfl, rfl, rfl⟩

/-- `__post_save` performs no cache reads. -/
lemma post_save_reads (h : String → String) (mgr : BaseManager) (i : PyInst)
    (st : St) : ((post_save h mgr i st).2).reads = st.reads := by
  unfold post_save
  rcases hsp : setPointers h mgr i mgr.cache_fields st with ⟨e, st₁⟩
  have h₁ : st₁.reads = st.reads := by
    have := (setPointers_invar h mgr i mgr.cache_fields st).2.1
    rwa [hsp] at this
  cases e with
  | some e => exact h₁
  | none =>
    have h₂ : (valueEntryWrite h mgr i st₁).reads = st.reads :=
      (valueEntryWrite_invar h mgr i st₁).2.1.trans h₁
    rcases htr : (valueEntryWrite h mgr i st₁).tracked i.objId with _ | snap
    · simp only [htr]
      show (cacheState mgr i (valueEntryWrite h mgr i st₁)).reads = st.reads
      exact (cacheState_entries mgr i (valueEntryWrite h mgr i st₁)).2.1.trans h₂
    · simp only [htr]
      rcases hsd : staleDeletes h mgr i snap mgr.cache_fields (valueEntryWrite h mgr i st₁) with ⟨e₂, st₃⟩
      have h₃ : st₃.reads = st.reads := by
        have := (staleDeletes_invar h mgr i snap mgr.cache_fields (valueEntryWrite h mgr i st₁)).2.1
        rw [hsd] at this
        exact this.trans h₂
      cases e₂ with
      | some e₂ => exact h₃
      | none =>
        show (cacheState mgr i st₃).reads = st.reads
        exact (cacheState_entries mgr i st₃).2.1.trans h₃

/-- A successful `cache.delete` leaves its own key absent. -/
lemma cacheDelete_ok_self (st : St) (k : String) (ver : Option String)
    (hok : (cacheDelete st k ver).1 = none) :
    ((cacheDelete st k ver).2).entries (k, ver) = none := by
  unfold cacheDelete at hok ⊢
  by_cases hf : k ∈ st.failDelete
  · rw [if_pos hf] at hok
    exact absurd hok (by simp)
  · rw [if_neg hf]
    show (if ((k, ver) : String × Option String) = (k, ver) then none
        else st.entries (k, ver)) = none
    rw [if_pos rfl]

/-- The stale-delete loop only deletes: an absent entry stays absent. -/
lemma staleDeletes_pres_none (h : String → String) (mgr : BaseManager)
    (i : PyInst) (snap : List (String × PyVal)) (l : List String) :
    ∀ (st : St) (kv : String × Option String), st.entries kv = none →
      ((staleDeletes h mgr i snap l st).2).entries kv = none := by
  induction l with
  | nil => intro st kv hkv; exact hkv
  | cons k ks ih =>
    intro st kv hkv
    rcases hfind : snap.find? (fun p => p.1 = k) with _ | p
    · simp only [staleDeletes, hfind]
      exact ih st kv hkv
    · simp only [staleDeletes, hfind]
      by_cases hch : p.2 = valueForField i k
      · rw [if_pos hch]
        exact ih st kv hkv
      · rw [if_neg hch]
        unfold cacheDelete
        by_cases hf : lookupCacheKey h mgr.meta [(k, p.2)] ∈ st.failDelete
        · rw [if_pos hf]
          exact hkv
        · rw [if_neg hf]
          refine ih _ kv ?_
          show (if kv = (lookupCacheKey h mgr.meta [(k, p.2)], mgr.cache_version)
              then none else st.entries kv) = none
          split
          · rfl
          · exact hkv

/-- The pointer-delete loop only deletes: an absent entry stays absent. -/
lemma delPointers_pres_none (h : String → String) (mgr : BaseManager)
    (i : PyInst) (l : List String) :
    ∀ (st : St) (kv : String × Option String), st.entries kv = none →
      ((delPointers h mgr i l st).2).entries kv = none := by
  induction l with
  | nil => intro st kv hkv; exact hkv
  | cons k ks ih =>
    intro st kv hkv
    by_cases hpk : k = "pk" ∨ k = i.pkName
    · simp only [delPointers, if_pos hpk]
      exact ih st kv hkv
    · simp only [delPointers, if_neg hpk]
      unfold cacheDelete
      by_cases hf : lookupCacheKey h mgr.meta [(k, valueForField i k)] ∈ st.failDelete
      · rw [if_pos hf]
        exact hkv
      · rw [if_neg hf]
        refine ih _ kv ?_
        show (if kv = (lookupCacheKey h mgr.meta [(k, valueForField i k)], mgr.cache_version)
            then none else st.entries kv) = none
        split
        · rfl
        · exact hkv

/-- When the stale-delete loop completes and the snapshot records a changed
value for `f`, the pointer entry keyed by the old value is gone. -/
lemma staleDeletes_kills (h : String → String) (mgr : BaseManager) (i : PyInst)
    (snap : List (String × PyVal)) (f : String) (old : PyVal)
    (hsnap : snap.find? (fun p => p.1 = f) = some (f, old))
    (hne : ¬ old = valueForField i f) :
    ∀ (l : List String) (st st' : St), f ∈ l →
      staleDeletes h mgr i snap l st = (none, st') →
      st'.entries (lookupCacheKey h mgr.meta [(f, old)], mgr.cache_version) = none := by
  intro l
  induction l with
  | nil => intro st st' hf; exact absurd hf (List.not_mem_nil f)
  | cons k ks ih =>
    intro st st' hf hres
    by_cases hk : f = k
    · subst hk
      simp only [staleDeletes, hsnap] at hres
      rw [if_neg hne] at hres
      rcases hcd : cacheDelete st (lookupCacheKey h mgr.meta [(f, old)])
          mgr.cache_version with ⟨e₃, st₂⟩
      rw [hcd] at hres
      cases e₃ with
      | some e₃ => simp at hres
      | none =>
        have h₂ : st₂.entries
            (lookupCacheKey h mgr.meta [(f, old)], mgr.cache_version) = none := by
          have := cacheDelete_ok_self st (lookupCacheKey h mgr.meta [(f, old)])
            mgr.cache_version (by rw [hcd])
          rwa [hcd] at this
        have hres' : staleDeletes h mgr i snap ks st₂ = (none, st') := hres
        have := staleDeletes_pres_none h mgr i snap ks st₂
          (lookupCacheKey h mgr.meta [(f, old)], mgr.cache_version) h₂
        rw [hres'] at this
        exact this
    · have hfks : f ∈ ks := List.mem_of_ne_of_mem hk hf
      rcases hfind : snap.find? (fun p => p.1 = k) with _ | p
      · simp only [staleDeletes, hfind] at hres
        exact ih _ _ hfks hres
      · simp only [staleDeletes, hfind] at hres
        by_cases hch : p.2 = valueForField i k
        · rw [if_pos hch] at hres
          exact ih _ _ hfks hres
        · rw [if_neg hch] at hres
          unfold cacheDelete at hres
          by_cases hfail : lookupCacheKey h mgr.meta [(k, p.2)] ∈ st.failDelete
          · rw [if_pos hfail] at hres
            simp at hres
          · rw [if_neg hfail] at hres
            exact ih _ _ hfks hres

/-- When the pointer-delete loop completes, every non-primary-key cacheable
field it covered has its current-value pointer entry gone. -/
lemma delPointers_kills (h : String → String) (mgr : BaseManager) (i : PyInst)
    (f : String) (hnpk : ¬(f = "pk" ∨ f = i.pkName)) :
    ∀ (l : List String) (st st' : St), f ∈ l →
      delPointers h mgr i l st = (none, st') →
      st'.entries (lookupCacheKey h mgr.meta [(f, valueForField i f)],
        mgr.cache_version) = none := by
  intro l
  induction l with
  | nil => intro st st' hf; exact absurd hf (List.not_mem_nil f)
  | cons k ks ih =>
    intro st st' hf hres
    by_cases hk : f = k
    · subst hk
      simp only [delPointers, if_neg hnpk] at hres
      rcases hcd : cacheDelete st (lookupCacheKey h mgr.meta [(f, valueForField i f)])
          mgr.cache_version with ⟨e₃, st₂⟩
      rw [hcd] at hres
      cases e₃ with
      | some e₃ => simp at hres
      | none =>
        have h₂ : st₂.entries
            (lookupCacheKey h mgr.meta [(f, valueForField i f)], mgr.cache_version) = none := by
          have := cacheDelete_ok_self st
            (lookupCacheKey h mgr.meta [(f, valueForField i f)])
            mgr.cache_version (by rw [hcd])
          rwa [hcd] at this
        have hres' : delPointers h mgr i ks st₂ = (none, st') := hres
        have := delPointers_pres_none h mgr i ks st₂
          (lookupCacheKey h mgr.meta [(f, valueForField i f)], mgr.cache_version) h₂
        rw [hres'] at this
        exact this
    · have hfks : f ∈ ks := List.mem_of_ne_of_mem hk hf
      by_cases hkpk : k = "pk" ∨ k = i.pkName
      · simp only [delPointers, if_pos hkpk] at hres
        exact ih _ _ hfks hres
      · simp only [delPointers, if_neg hkpk] at hres
        unfold cacheDelete at hres
        by_cases hfail : lookupCacheKey h mgr.meta [(k, valueForField i k)] ∈ st.failDelete
        · rw [if_pos hfail] at hres
          simp at hres
        · rw [if_neg hfail] at hres
          exact ih _ _ hfks hres

/-- A `cache.delete` never resurrects an absent entry. -/
lemma cacheDelete_pres_none (st : St) (k : String) (ver : Option String)
    (kv : String × Option String) (hkv : st.entries kv = none) :
    ((cacheDelete st k ver).2).entries kv = none := by
  unfold cacheDelete
  by_cases hf : k ∈ st.failDelete
  · rw [if_pos hf]
    exact hkv
  · rw [if_neg hf]
    show (if kv = (k, ver) then none else st.entries kv) = none
    split
    · rfl
    · exact hkv

/-- A successful `cache.set` appends exactly its own operation. -/
lemma cacheSet_ok_ops (st : St) (k : String) (ttl : Nat) (ver : Option String)
    (v : CVal) (hok : (cacheSet st k ttl ver v).1 = none) :
    ((cacheSet st k ttl ver v).2).ops = st.ops ++ [.setOp k ttl ver v] := by
  unfold cacheSet at hok ⊢
  by_cases hf : k ∈ st.failSet
  · rw [if_pos hf] at hok
    exact absurd hok (by simp)
  · rw [if_neg hf]

/-- A successful `cache.set` stores its value under its own key. -/
lemma cacheSet_ok_self (st : St) (k : String) (ttl : Nat) (ver : Option String)
    (v : CVal) (hok : (cacheSet st k ttl ver v).1 = none) :
    ((cacheSet st k ttl ver v).2).entries (k, ver) = some v := by
  unfold cacheSet at hok ⊢
  by_cases hf : k ∈ st.failSet
  · rw [if_pos hf] at hok
    exact absurd hok (by simp)
  · rw [if_neg hf]
    show (if ((k, ver) : String × Option String) = (k, ver) then some v
        else st.entries (k, ver)) = some v
    rw [if_pos rfl]

/-- A successful `cache.delete` appends exactly its own operation. -/
lemma cacheDelete_ok_ops (st : St) (k : String) (ver : Option String)
    (hok : (cacheDelete st k ver).1 = none) :
    ((cacheDelete st k ver).2).ops = st.ops ++ [.delOp k ver] := by
  unfold cacheDelete at hok ⊢
  by_cases hf : k ∈ st.failDelete
  · rw [if_pos hf] at hok
    exact absurd hok (by simp)
  · rw [if_neg hf]

/-- The pointer-write loop succeeds when none of its keys is failing. -/
lemma setPointers_fst_none (h : String → String) (mgr : BaseManager)
    (i : PyInst) : ∀ (l : List String) (st : St),
    (∀ f ∈ l, ¬(f = "pk" ∨ f = i.pkName) →
      lookupCacheKey h mgr.meta [(f, valueForField i f)] ∉ st.failSet) →
    (setPointers h mgr i l st).1 = none := by
  intro l
  induction l with
  | nil => intro st _; rfl
  | cons k ks ih =>
    intro st hyp
    by_cases hpk : k = "pk" ∨ k = i.pkName
    · simp only [setPointers, if_pos hpk]
      exact ih st (fun f hf => hyp f (List.mem_cons_of_mem _ hf))
    · simp only [setPointers, if_neg hpk]
      have hk := hyp k (List.mem_cons_self _ _) hpk
      unfold cacheSet
      rw [if_neg hk]
      exact ih _ (fun f hf hn => hyp f (List.mem_cons_of_mem _ hf) hn)

/-- The stale-delete loop succeeds when the delete backend never fails. -/
lemma staleDeletes_fst_none (h : String → String) (mgr : BaseManager)
    (i : PyInst) (snap : List (String × PyVal)) :
    ∀ (l : List String) (st : St), st.failDelete = [] →
    (staleDeletes h mgr i snap l st).1 = none := by
  intro l
  induction l with
  | nil => intro st _; rfl
  | cons k ks ih =>
    intro st hfd
    rcases hfind : snap.find? (fun p => p.1 = k) with _ | p
    · simp only [staleDeletes, hfind]
      exact ih st hfd
    · simp only [staleDeletes, hfind]
      by_cases hch : p.2 = valueForField i k
      · rw [if_pos hch]
        exact ih st hfd
      · rw [if_neg hch]
        have hk : lookupCacheKey h mgr.meta [(k, p.2)] ∉ st.failDelete := by
          rw [hfd]
          exact List.not_mem_nil _
        unfold cacheDelete
        rw [if_neg hk]
        exact ih _ hfd

/-- Completed pointer-write loop: ops extended by one pointer set per
non-primary-key field covered. -/
lemma setPointers_ops (h : String → String) (mgr : BaseManager) (i : PyInst) :
    ∀ (l : List String) (st st' : St),
    setPointers h mgr i l st = (none, st') →
    ∃ t, st'.ops = st.ops ++ t ∧
      ∀ f ∈ l, ¬(f = "pk" ∨ f = i.pkName) →
        CacheOp.setOp (lookupCacheKey h mgr.meta [(f, valueForField i f)])
          mgr.cache_ttl mgr.cache_version (.raw (pkToVal i.pk)) ∈ t := by
  intro l
  induction l with
  | nil =>
    intro st st' hres
    cases hres
    exact ⟨[], by simp, fun f hf => absurd hf (List.not_mem_nil f)⟩
  | cons k ks ih =>
    intro st st' hres
    by_cases hpk : k = "pk" ∨ k = i.pkName
    · simp only [setPointers, if_pos hpk] at hres
      obtain ⟨t, ht, hm⟩ := ih st st' hres
      refine ⟨t, ht, fun f hf hn => ?_⟩
      rcases List.mem_cons.mp hf with rfl | hfks
      · exact absurd hpk hn
      · exact hm f hfks hn
    · simp only [setPointers, if_neg hpk] at hres
      rcases hcs : cacheSet st (lookupCacheKey h mgr.meta [(k, valueForField i k)])
          mgr.cache_ttl mgr.cache_version (.raw (pkToVal i.pk)) with ⟨e₃, st₂⟩
      rw [hcs] at hres
      cases e₃ with
      | some e₃ => simp at hres
      | none =>
        have hres' : setPointers h mgr i ks st₂ = (none, st') := hres
        obtain ⟨t, ht, hm⟩ := ih st₂ st' hres'
        have hops : st₂.ops = st.ops ++
            [CacheOp.setOp (lookupCacheKey h mgr.meta [(k, valueForField i k)])
              mgr.cache_ttl mgr.cache_version (.raw (pkToVal i.pk))] := by
          have := cacheSet_ok_ops st (lookupCacheKey h mgr.meta [(k, valueForField i k)])
            mgr.cache_ttl mgr.cache_version (.raw (pkToVal i.pk)) (by rw [hcs])
          rwa [hcs] at this
        refine ⟨CacheOp.setOp (lookupCacheKey h mgr.meta [(k, valueForField i k)])
            mgr.cache_ttl mgr.cache_version (.raw (pkToVal i.pk)) :: t, ?_, ?_⟩
        · rw [ht, hops]
          simp
        · intro f hf hn
          rcases List.mem_cons.mp hf with rfl | hfks
          · exact List.mem_cons_self _ _
          · exact List.mem_cons_of_mem _ (hm f hfks hn)

/-- Completed pointer-delete loop: ops extended by one pointer delete per
non-primary-key field covered. -/
lemma delPointers_ops (h : String → String) (mgr : BaseManager) (i : PyInst) :
    ∀ (l : List String) (st st' : St),
    delPointers h mgr i l st = (none, st') →
    ∃ t, st'.ops = st.ops ++ t ∧
      ∀ f ∈ l, ¬(f = "pk" ∨ f = i.pkName) →
        CacheOp.delOp (lookupCacheKey h mgr.meta [(f, valueForField i f)])
          mgr.cache_version ∈ t := by
  intro l
  induction l with
  | nil =>
    intro st st' hres
    cases hres
    exact ⟨[], by simp, fun f hf => absurd hf (List.not_mem_nil f)⟩
  | cons k ks ih =>
    intro st st' hres
    by_cases hpk : k = "pk" ∨ k = i.pkName
    · simp only [delPointers, if_pos hpk] at hres
      obtain ⟨t, ht, hm⟩ := ih st st' hres
      refine ⟨t, ht, fun f hf hn => ?_⟩
      rcases List.mem_cons.mp hf with rfl | hfks
      · exact absurd hpk hn
      · exact hm f hfks hn
    · simp only [delPointers, if_neg hpk] at hres
      rcases hcd : cacheDelete st (lookupCacheKey h mgr.meta [(k, valueForField i k)])
          mgr.cache_version with ⟨e₃, st₂⟩
      rw [hcd] at hres
      cases e₃ with
      | some e₃ => simp at hres
      | none =>
        have hres' : delPointers h mgr i ks st₂ = (none, st') := hres
        obtain ⟨t, ht, hm⟩ := ih st₂ st' hres'
        have hops : st₂.ops = st.ops ++
            [CacheOp.delOp (lookupCacheKey h mgr.meta [(k, valueForField i k)])
              mgr.cache_version] := by
          have := cacheDelete_ok_ops st
            (lookupCacheKey h mgr.meta [(k, valueForField i k)])
            mgr.cache_version (by rw [hcd])
          rwa [hcd] at this
        refine ⟨CacheOp.delOp (lookupCacheKey h mgr.meta [(k, valueForField i k)])
            mgr.cache_version :: t, ?_, ?_⟩
        · rw [ht, hops]
          simp
        · intro f hf hn
          rcases List.mem_cons.mp hf with rfl | hfks
          · exact List.mem_cons_self _ _
          · exact List.mem_cons_of_mem _ (hm f hfks hn)

/-- The stale-delete loop only ever appends operations. -/
lemma staleDeletes_ops_mono (h : String → String) (mgr : BaseManager)
    (i : PyInst) (snap : List (String × PyVal)) :
    ∀ (l : List String) (st : St),
    ∃ t, ((staleDeletes h mgr i snap l st).2).ops = st.ops ++ t := by
  intro l
  induction l with
  | nil => intro st; exact ⟨[], by simp [staleDeletes]⟩
  | cons k ks ih =>
    intro st
    rcases hfind : snap.find? (fun p => p.1 = k) with _ | p
    · simp only [staleDeletes, hfind]
      exact ih st
    · simp only [staleDeletes, hfind]
      by_cases hch : p.2 = valueForField i k
      · rw [if_pos hch]
        exact ih st
      · rw [if_neg hch]
        unfold cacheDelete
        by_cases hf : lookupCacheKey h mgr.meta [(k, p.2)] ∈ st.failDelete
        · rw [if_pos hf]
          exact ⟨[], by simp⟩
        · rw [if_neg hf]
          obtain ⟨t, ht⟩ := ih ({ st with
            entries := fun kv =>
              if kv = (lookupCacheKey h mgr.meta [(k, p.2)], mgr.cache_version) then none
              else st.entries kv
            ops := st.ops ++ [.delOp (lookupCacheKey h mgr.meta [(k, p.2)]) mgr.cache_version] })
          exact ⟨CacheOp.delOp (lookupCacheKey h mgr.meta [(k, p.2)]) mgr.cache_version :: t,
            by rw [ht]; simp⟩

/-- The value-entry write only ever appends operations. -/
lemma valueEntryWrite_ops_mono (h : String → String) (mgr : BaseManager)
    (i : PyInst) (st : St) :
    ∃ t, (valueEntryWrite h mgr i st).ops = st.ops ++ t := by
  unfold valueEntryWrite cacheSet
  by_cases hf : lookupCacheKey h mgr.meta [(i.pkName, pkToVal i.pk)] ∈ st.failSet
  · rw [if_pos hf]
    exact ⟨[], by simp⟩
  · rw [if_neg hf]
    exact ⟨_, rfl⟩

/-- When the value-entry key is not failing, the value write stores the
snapshot (with `_state.db` cleared) and records exactly its operation. -/
lemma valueEntryWrite_ok (h : String → String) (mgr : BaseManager) (i : PyInst)
    (st : St)
    (hok : lookupCacheKey h mgr.meta [(i.pkName, pkToVal i.pk)] ∉ st.failSet) :
    (valueEntryWrite h mgr i st).ops = st.ops ++
      [CacheOp.setOp (lookupCacheKey h mgr.meta [(i.pkName, pkToVal i.pk)])
        mgr.cache_ttl mgr.cache_version (.obj { i with stateDb := none })] ∧
    (valueEntryWrite h mgr i st).entries
        (lookupCacheKey h mgr.meta [(i.pkName, pkToVal i.pk)], mgr.cache_version) =
      some (.obj { i with stateDb := none }) := by
  constructor
  · exact cacheSet_ok_ops st _ _ _ _ (by unfold cacheSet; rw [if_neg hok])
  · exact cacheSet_ok_self st _ _ _ _ (by unfold cacheSet; rw [if_neg hok])

/-- C1: when a save completes for an entity with a tracked snapshot in which
a cacheable field `f` recorded a value different from its current value, the
pointer entry keyed by the old value is absent from the cache after the
hook — the stale pointer does not persist past the write. -/
theorem C1_stale_pointer_removed (h : String → String) (mgr : BaseManager)
    (i : PyInst) (st stF : St) (snap : List (String × PyVal))
    (f : String) (old : PyVal)
    (hps : post_save h mgr i st = (none, stF))
    (htr : st.tracked i.objId = some snap)
    (hf : f ∈ mgr.cache_fields)
    (hsnap : snap.find? (fun p => p.1 = f) = some (f, old))
    (hne : ¬ old = valueForField i f) :
    stF.entries (lookupCacheKey h mgr.meta [(f, old)], mgr.cache_version) = none := by
  unfold post_save at hps
  rcases hsp : setPointers h mgr i mgr.cache_fields st with ⟨e₁, st₁⟩
  rw [hsp] at hps
  cases e₁ with
  | some e₁ => simp at hps
  | none =>
    have htr₁ : (valueEntryWrite h mgr i st₁).tracked i.objId = some snap := by
      rw [(valueEntryWrite_invar h mgr i st₁).1]
      have hti := (setPointers_invar h mgr i mgr.cache_fields st).1
      rw [hsp] at hti
      rw [hti]
      exact htr
    have hps₂ : (match
        (match (valueEntryWrite h mgr i st₁).tracked i.objId with
         | none => ((none : Option PyErr), valueEntryWrite h mgr i st₁)
         | some snap =>
           staleDeletes h mgr i snap mgr.cache_fields (valueEntryWrite h mgr i st₁)) with
      | (some e, st₃) => (some e, st₃)
      | (none, st₃) => ((none : Option PyErr), cacheState mgr i st₃)) = (none, stF) := hps
    rw [htr₁] at hps₂
    have hps₃ : (match staleDeletes h mgr i snap mgr.cache_fields
        (valueEntryWrite h mgr i st₁) with
      | (some e, st₃) => (some e, st₃)
      | (none, st₃) => ((none : Option PyErr), cacheState mgr i st₃)) = (none, stF) := hps₂
    rcases hsd : staleDeletes h mgr i snap mgr.cache_fields
        (valueEntryWrite h mgr i st₁) with ⟨e₂, st₃⟩
    rw [hsd] at hps₃
    cases e₂ with
    | some e₂ => simp at hps₃
    | none =>
      have hps' : ((none : Option PyErr), cacheState mgr i st₃) = (none, stF) := hps₃
      have hstF : cacheState mgr i st₃ = stF := ((Prod.mk.injEq _ _ _ _).mp hps').2
      rw [← hstF, (cacheState_entries mgr i st₃).1]
      exact staleDeletes_kills h mgr i snap f old hsnap hne mgr.cache_fields _ _ hf hsd

/-- Witness for C1: a second save of `orgInst` (whose `slug` is now `"bar"`)
leaves no pointer entry keyed by the old `"foo"` value. -/
theorem C1_witness :
    stTracked.tracked orgInst.objId = some [("slug", PyVal.vstr "foo")] ∧
    "slug" ∈ orgMgr.cache_fields ∧
    ¬ PyVal.vstr "foo" = valueForField orgInst "slug" ∧
    ((post_save hashId orgMgr orgInst stTracked).2).entries
      (lookupCacheKey hashId orgMgr.meta [("slug", .vstr "foo")],
        orgMgr.cache_version) = none := by
  refine ⟨rfl, by decide, by decide, ?_⟩
  exact C1_stale_pointer_removed hashId orgMgr orgInst stTracked
    ((post_save hashId orgMgr orgInst stTracked).2) [("slug", .vstr "foo")]
    "slug" (.vstr "foo") (by rfl) rfl (by decide) (by rfl) (by decide)

/-- Counterexample to C3 as stated: an exception raised by the cache backend
during a *pointer-entry* write in the save hook is not caught — it propagates
out of `__post_save` (only the value-entry write is wrapped in try/except). -/
theorem C3_counterexample :
    (post_save hashId orgMgr orgInst stPtrFail).1 = some PyErr.cacheError := by
  rfl

/-- C3 (amended): an exception raised during the *value-entry* cache write in
the save hook is caught and never propagated; the hook completes normally
whenever the pointer writes and stale-pointer deletions themselves succeed,
regardless of whether the value-entry write fails. -/
theorem C3_value_write_failure_contained (h : String → String)
    (mgr : BaseManager) (i : PyInst) (st : St)
    (hptr : ∀ f ∈ mgr.cache_fields, ¬(f = "pk" ∨ f = i.pkName) →
      lookupCacheKey h mgr.meta [(f, valueForField i f)] ∉ st.failSet)
    (hdel : st.failDelete = []) :
    (post_save h mgr i st).1 = none := by
  unfold post_save
  rcases hsp : setPointers h mgr i mgr.cache_fields st with ⟨e₁, st₁⟩
  have he₁ : e₁ = none := by
    have := setPointers_fst_none h mgr i mgr.cache_fields st hptr
    rw [hsp] at this
    exact this
  subst he₁
  have hfd₁ : st₁.failDelete = [] := by
    have := (setPointers_invar h mgr i mgr.cache_fields st).2.2.2.1
    rw [hsp] at this
    rw [this]
    exact hdel
  have hfd₂ : (valueEntryWrite h mgr i st₁).failDelete = [] :=
    ((valueEntryWrite_invar h mgr i st₁).2.2.2.1).trans hfd₁
  rcases htr : (valueEntryWrite h mgr i st₁).tracked i.objId with _ | snap
  · simp only [htr]
  · simp only [htr]
    rcases hsd : staleDeletes h mgr i snap mgr.cache_fields
        (valueEntryWrite h mgr i st₁) with ⟨e₂, st₃⟩
    have he₂ : e₂ = none := by
      have := staleDeletes_fst_none h mgr i snap mgr.cache_fields _ hfd₂
      rw [hsd] at this
      exact this
    subst he₂
    rfl

/-- Witness for the amended C3: with the value-entry key failing (and nothing
else), the save hook still completes without an exception. -/
theorem C3_witness :
    stValFail.failDelete = [] ∧
    (post_save hashId orgMgr orgInst stValFail).1 = none := by
  refine ⟨rfl, ?_⟩
  exact C3_value_write_failure_contained hashId orgMgr orgInst stValFail
    (by decide) rfl

/-- C7: after a completed delete hook on an entity with a primary key, the
pointer entries for every non-primary-key cacheable field (keyed by current
values) and the primary-key value entry are all absent, and the operation
trace shows the pointer deletes followed, last, by the value-entry delete. -/
theorem C7_delete_hook_invalidation (h : String → String) (mgr : BaseManager)
    (i : PyInst) (st stF : St)
    (hpk : truthyPk i.pk = true)
    (hpd : post_delete h mgr i st = (none, stF)) :
    (∀ f ∈ mgr.cache_fields, ¬(f = "pk" ∨ f = i.pkName) →
      stF.entries (lookupCacheKey h mgr.meta [(f, valueForField i f)],
        mgr.cache_version) = none) ∧
    stF.entries (lookupCacheKey h mgr.meta [(i.pkName, pkToVal i.pk)],
      mgr.cache_version) = none ∧
    ∃ t, stF.ops = st.ops ++ t ++
        [CacheOp.delOp (lookupCacheKey h mgr.meta [(i.pkName, pkToVal i.pk)])
          mgr.cache_version] ∧
      ∀ f ∈ mgr.cache_fields, ¬(f = "pk" ∨ f = i.pkName) →
        CacheOp.delOp (lookupCacheKey h mgr.meta [(f, valueForField i f)])
          mgr.cache_version ∈ t := by
  unfold post_delete at hpd
  rcases hdp : delPointers h mgr i mgr.cache_fields st with ⟨e₁, st₁⟩
  rw [hdp] at hpd
  cases e₁ with
  | some e₁ => simp at hpd
  | none =>
    have hpd₂ : (match cacheDelete st₁
        (lookupCacheKey h mgr.meta [(i.pkName, pkToVal i.pk)]) mgr.cache_version with
      | (some e, st₂) => (some e, st₂)
      | (none, st₂) => ((none : Option PyErr), st₂)) = (none, stF) := hpd
    rcases hcd : cacheDelete st₁
        (lookupCacheKey h mgr.meta [(i.pkName, pkToVal i.pk)])
        mgr.cache_version with ⟨e₂, st₂⟩
    rw [hcd] at hpd₂
    cases e₂ with
    | some e₂ => simp at hpd₂
    | none =>
      have hpd' : ((none : Option PyErr), st₂) = (none, stF) := hpd₂
      have hstF : st₂ = stF := ((Prod.mk.injEq _ _ _ _).mp hpd').2
      subst hstF
      refine ⟨?_, ?_, ?_⟩
      · intro f hf hn
        have h₁ := delPointers_kills h mgr i f hn mgr.cache_fields st st₁ hf hdp
        have := cacheDelete_pres_none st₁
          (lookupCacheKey h mgr.meta [(i.pkName, pkToVal i.pk)]) mgr.cache_version
          (lookupCacheKey h mgr.meta [(f, valueForField i f)], mgr.cache_version) h₁
        rwa [hcd] at this
      · have := cacheDelete_ok_self st₁
          (lookupCacheKey h mgr.meta [(i.pkName, pkToVal i.pk)]) mgr.cache_version
          (by rw [hcd])
        rwa [hcd] at this
      · obtain ⟨t, ht, hm⟩ := delPointers_ops h mgr i mgr.cache_fields st st₁ hdp
        refine ⟨t, ?_, hm⟩
        have := cacheDelete_ok_ops st₁
          (lookupCacheKey h mgr.meta [(i.pkName, pkToVal i.pk)]) mgr.cache_version
          (by rw [hcd])
        rw [hcd] at this
        rw [this, ht, List.append_assoc]

/-- Witness for C7: deleting the concrete instance from a cache populated by
its own save leaves neither the `slug` pointer entry nor the `id` value
entry, with the delete ops in order. -/
theorem C7_witness :
    truthyPk orgInst.pk = true ∧
    (∀ f ∈ orgMgr.cache_fields, ¬(f = "pk" ∨ f = orgInst.pkName) →
      ((post_delete hashId orgMgr orgInst
          ((post_save hashId orgMgr orgInst emptySt).2)).2).entries
        (lookupCacheKey hashId orgMgr.meta [(f, valueForField orgInst f)],
          orgMgr.cache_version) = none) ∧
    ((post_delete hashId orgMgr orgInst
        ((post_save hashId orgMgr orgInst emptySt).2)).2).entries
      (lookupCacheKey hashId orgMgr.meta [(orgInst.pkName, pkToVal orgInst.pk)],
        orgMgr.cache_version) = none := by
  have h := C7_delete_hook_invalidation hashId orgMgr orgInst
    ((post_save hashId orgMgr orgInst emptySt).2)
    ((post_delete hashId orgMgr orgInst
      ((post_save hashId orgMgr orgInst emptySt).2)).2) rfl (by rfl)
  exact ⟨rfl, h.1, h.2.1⟩

/-- Witness for C6 at a concrete permuted pair of kwargs. -/
theorem C6_witness :
    ([("a", PyVal.vint 1), ("b", PyVal.vint 2)].Perm
        [("b", PyVal.vint 2), ("a", PyVal.vint 1)] ∧
      ([("a", PyVal.vint 1), ("b", PyVal.vint 2)].map Prod.fst).Nodup) ∧
    make_key hashId orgMgr.meta "p" [("a", .vint 1), ("b", .vint 2)] =
      make_key hashId orgMgr.meta "p" [("b", .vint 2), ("a", .vint 1)] := by
  refine ⟨⟨List.Perm.swap _ _ _, by decide⟩, ?_⟩
  exact C6_make_key_order_invariant.1 hashId orgMgr.meta "p" _ _
    (List.Perm.swap _ _ _) (by decide)

/-! ### Unfolding the read path -/

/-- One step of `get_from_cache` on a single-kwarg call with caching
configured. -/
lemma get_from_cache_single (env : Env) (mgr : BaseManager) (fuel : Nat)
    (k₀ : String) (v₀ : PyVal) (st : St) (hcf : mgr.cache_fields ≠ []) :
    get_from_cache env mgr (fuel + 1) [(k₀, v₀)] st =
      if normKey mgr.meta.pkName k₀ ∈ mgr.cache_fields ∨
          normKey mgr.meta.pkName k₀ = mgr.meta.pkName then
        match cacheGet st (lookupCacheKey env.hash mgr.meta
            [(normKey mgr.meta.pkName k₀, normVal v₀)]) mgr.cache_version with
        | (none, st₁) => missPath env mgr [(k₀, v₀)] st₁
        | (some rv, st₁) =>
          hitPath env mgr fuel [(k₀, v₀)] (normKey mgr.meta.pkName k₀)
            (normVal v₀) rv st₁
      else plainGet env st [(k₀, v₀)] := by
  unfold get_from_cache
  rw [if_neg]
  intro hor
  rcases hor with hcf' | hlen
  · exact hcf hcf'
  · simp at hlen

/-- A cache miss on a single cacheable kwarg continues into `missPath` after
exactly one traced read. -/
lemma get_from_cache_miss (env : Env) (mgr : BaseManager) (fuel : Nat)
    (k₀ : String) (v₀ : PyVal) (st : St) (hcf : mgr.cache_fields ≠ [])
    (hmem : normKey mgr.meta.pkName k₀ ∈ mgr.cache_fields ∨
      normKey mgr.meta.pkName k₀ = mgr.meta.pkName)
    (hmiss : st.entries (lookupCacheKey env.hash mgr.meta
      [(normKey mgr.meta.pkName k₀, normVal v₀)], mgr.cache_version) = none) :
    get_from_cache env mgr (fuel + 1) [(k₀, v₀)] st =
      missPath env mgr [(k₀, v₀)]
        { st with reads := st.reads ++ [lookupCacheKey env.hash mgr.meta
            [(normKey mgr.meta.pkName k₀, normVal v₀)]] } := by
  rw [get_from_cache_single env mgr fuel k₀ v₀ st hcf, if_pos hmem]
  rw [show cacheGet st (lookupCacheKey env.hash mgr.meta
      [(normKey mgr.meta.pkName k₀, normVal v₀)]) mgr.cache_version =
    (st.entries (lookupCacheKey env.hash mgr.meta
        [(normKey mgr.meta.pkName k₀, normVal v₀)], mgr.cache_version),
      { st with reads := st.reads ++ [lookupCacheKey env.hash mgr.meta
          [(normKey mgr.meta.pkName k₀, normVal v₀)]] }) from rfl]
  rw [hmiss]

/-- A cache hit on a single cacheable kwarg continues into `hitPath` after
exactly one traced read. -/
lemma get_from_cache_hit (env : Env) (mgr : BaseManager) (fuel : Nat)
    (k₀ : String) (v₀ : PyVal) (st : St) (rv : CVal)
    (hcf : mgr.cache_fields ≠ [])
    (hmem : normKey mgr.meta.pkName k₀ ∈ mgr.cache_fields ∨
      normKey mgr.meta.pkName k₀ = mgr.meta.pkName)
    (hhit : st.entries (lookupCacheKey env.hash mgr.meta
      [(normKey mgr.meta.pkName k₀, normVal v₀)], mgr.cache_version) = some rv) :
    get_from_cache env mgr (fuel + 1) [(k₀, v₀)] st =
      hitPath env mgr fuel [(k₀, v₀)] (normKey mgr.meta.pkName k₀) (normVal v₀)
        rv { st with reads := st.reads ++ [lookupCacheKey env.hash mgr.meta
            [(normKey mgr.meta.pkName k₀, normVal v₀)]] } := by
  rw [get_from_cache_single env mgr fuel k₀ v₀ st hcf, if_pos hmem]
  rw [show cacheGet st (lookupCacheKey env.hash mgr.meta
      [(normKey mgr.meta.pkName k₀, normVal v₀)]) mgr.cache_version =
    (st.entries (lookupCacheKey env.hash mgr.meta
        [(normKey mgr.meta.pkName k₀, normVal v₀)], mgr.cache_version),
      { st with reads := st.reads ++ [lookupCacheKey env.hash mgr.meta
          [(normKey mgr.meta.pkName k₀, normVal v₀)]] }) from rfl]
  rw [hhit]

/-- `self.get` performs no cache reads. -/
lemma plainGet_reads (env : Env) (st : St) (kwargs : List (String × PyVal)) :
    ((plainGet env st kwargs).2).reads = st.reads := by
  unfold plainGet
  rcases env.dbGet kwargs with _ | r
  · rfl
  · rfl

/-- The miss continuation performs no further cache reads. -/
lemma missPath_reads (env : Env) (mgr : BaseManager)
    (kwargs : List (String × PyVal)) (st : St) :
    ((missPath env mgr kwargs st).2).reads = st.reads := by
  unfold missPath plainGet
  rcases env.dbGet kwargs with _ | r
  · rfl
  · show ((match post_save env.hash mgr r
        { st with dbCalls := st.dbCalls ++ [kwargs] } with
      | (some e, st₃) => ((Except.error e : Except PyErr PyInst), st₃)
      | (none, st₃) => (.ok r, st₃)).2).reads = st.reads
    rcases hps : post_save env.hash mgr r
        { st with dbCalls := st.dbCalls ++ [kwargs] } with ⟨e, st₃⟩
    have h₃ : st₃.reads = st.reads := by
      have := post_save_reads env.hash mgr r
        { st with dbCalls := st.dbCalls ++ [kwargs] }
      rwa [hps] at this
    cases e with
    | some e => exact h₃
    | none => exact h₃

/-- `normKey` fixes the primary-key name itself. -/
lemma normKey_pkName (pkName : String) (hpk : ¬ pkName.endsWith "__exact" = true) :
    normKey pkName pkName = pkName := by
  unfold normKey
  by_cases hp : pkName = "pk"
  · rw [if_pos hp, if_neg hpk]
  · rw [if_neg hp, if_neg hpk]

/-- A primary-key lookup performs exactly one cache read, in every branch. -/
lemma get_from_cache_pk_reads (env : Env) (mgr : BaseManager) (fuel : Nat)
    (v : PyVal) (st : St) (hcf : mgr.cache_fields ≠ [])
    (hpk : ¬ mgr.meta.pkName.endsWith "__exact" = true) :
    ((get_from_cache env mgr (fuel + 1) [(mgr.meta.pkName, v)] st).2).reads =
      st.reads ++ [lookupCacheKey env.hash mgr.meta
        [(mgr.meta.pkName, normVal v)]] := by
  have hnorm := normKey_pkName mgr.meta.pkName hpk
  rcases hent : st.entries (lookupCacheKey env.hash mgr.meta
      [(mgr.meta.pkName, normVal v)], mgr.cache_version) with _ | rv
  · rw [get_from_cache_miss env mgr fuel mgr.meta.pkName v st hcf
      (by rw [hnorm]; exact Or.inr rfl) (by rw [hnorm]; exact hent)]
    rw [missPath_reads]
    rw [hnorm]
  · rw [get_from_cache_hit env mgr fuel mgr.meta.pkName v st rv hcf
      (by rw [hnorm]; exact Or.inr rfl) (by rw [hnorm]; exact hent)]
    rw [hnorm]
    unfold hitPath
    rw [if_neg (fun hne => hne rfl)]
    rcases rv with v' | inst
    · dsimp only
      by_cases hd : env.debug = true
      · rw [if_pos hd]
      · rw [if_neg hd]
        rw [plainGet_reads]
    · dsimp only
      by_cases hm : inst.modelName ≠ mgr.meta.name
      · rw [if_pos hm]
        by_cases hd : env.debug = true
        · rw [if_pos hd]
        · rw [if_neg hd]
          rw [plainGet_reads]
      · rw [if_neg hm]
        rcases hpi : pyToInt (normVal v) with _ | n
        · rfl
        · dsimp only
          by_cases hp : inst.pk ≠ some n
          · rw [if_pos hp]
            by_cases hd : env.debug = true
            · rw [if_pos hd]
            · rw [if_neg hd]
              rw [plainGet_reads]
          · rw [if_neg hp]


/-- C5: on a cache miss for a single cacheable kwarg, the backing store is
queried; on a backing-store miss `NotFound` surfaces with nothing written to
the cache; on success the save hook runs synchronously before the entity is
returned, and (when the backend accepts the writes) the trace contains the
value-entry set and one pointer set per non-primary-key cacheable field. -/
theorem C5_miss_queries_store_and_populates (env : Env) (mgr : BaseManager)
    (fuel : Nat) (k₀ : String) (v₀ : PyVal) (st : St)
    (hcf : mgr.cache_fields ≠ [])
    (hmem : normKey mgr.meta.pkName k₀ ∈ mgr.cache_fields ∨
      normKey mgr.meta.pkName k₀ = mgr.meta.pkName)
    (hmiss : st.entries (lookupCacheKey env.hash mgr.meta
      [(normKey mgr.meta.pkName k₀, normVal v₀)], mgr.cache_version) = none) :
    (env.dbGet [(k₀, v₀)] = none →
      get_from_cache env mgr (fuel + 1) [(k₀, v₀)] st =
        (.error .notFound,
          { st with
            reads := st.reads ++ [lookupCacheKey env.hash mgr.meta
              [(normKey mgr.meta.pkName k₀, normVal v₀)]]
            dbCalls := st.dbCalls ++ [[(k₀, v₀)]] })) ∧
    (∀ r, env.dbGet [(k₀, v₀)] = some r →
      get_from_cache env mgr (fuel + 1) [(k₀, v₀)] st =
        (match post_save env.hash mgr r
            { st with
              reads := st.reads ++ [lookupCacheKey env.hash mgr.meta
                [(normKey mgr.meta.pkName k₀, normVal v₀)]]
              dbCalls := st.dbCalls ++ [[(k₀, v₀)]] } with
         | (some e, s) => (.error e, s)
         | (none, s) => (.ok r, s))) ∧
    (∀ r stF, env.dbGet [(k₀, v₀)] = some r →
      post_save env.hash mgr r
        { st with
          reads := st.reads ++ [lookupCacheKey env.hash mgr.meta
            [(normKey mgr.meta.pkName k₀, normVal v₀)]]
          dbCalls := st.dbCalls ++ [[(k₀, v₀)]] } = (none, stF) →
      lookupCacheKey env.hash mgr.meta [(r.pkName, pkToVal r.pk)] ∉ st.failSet →
      CacheOp.setOp (lookupCacheKey env.hash mgr.meta [(r.pkName, pkToVal r.pk)])
          mgr.cache_ttl mgr.cache_version (.obj { r with stateDb := none }) ∈ stF.ops ∧
      ∀ f ∈ mgr.cache_fields, ¬(f = "pk" ∨ f = r.pkName) →
        CacheOp.setOp (lookupCacheKey env.hash mgr.meta [(f, valueForField r f)])
          mgr.cache_ttl mgr.cache_version (.raw (pkToVal r.pk)) ∈ stF.ops) := by
  refine ⟨?_, ?_, ?_⟩
  · intro hdb
    rw [get_from_cache_miss env mgr fuel k₀ v₀ st hcf hmem hmiss]
    unfold missPath plainGet
    rw [hdb]
  · intro r hdb
    rw [get_from_cache_miss env mgr fuel k₀ v₀ st hcf hmem hmiss]
    unfold missPath plainGet
    rw [hdb]
  · intro r stF hdb hps hvk
    unfold post_save at hps
    rcases hsp : setPointers env.hash mgr r mgr.cache_fields
        { st with
          reads := st.reads ++ [lookupCacheKey env.hash mgr.meta
            [(normKey mgr.meta.pkName k₀, normVal v₀)]]
          dbCalls := st.dbCalls ++ [[(k₀, v₀)]] } with ⟨e₁, st₁⟩
    rw [hsp] at hps
    cases e₁ with
    | some e₁ => simp at hps
    | none =>
      have hvk₁ : lookupCacheKey env.hash mgr.meta [(r.pkName, pkToVal r.pk)] ∉
          st₁.failSet := by
        have hfs := (setPointers_invar env.hash mgr r mgr.cache_fields
          { st with
            reads := st.reads ++ [lookupCacheKey env.hash mgr.meta
              [(normKey mgr.meta.pkName k₀, normVal v₀)]]
            dbCalls := st.dbCalls ++ [[(k₀, v₀)]] }).2.2.1
        rw [hsp] at hfs
        rw [hfs]
        exact hvk
      obtain ⟨hvops, _⟩ := valueEntryWrite_ok env.hash mgr r st₁ hvk₁
      obtain ⟨tp, htp, hmemp⟩ := setPointers_ops env.hash mgr r mgr.cache_fields _ _ hsp
      have hvalmem : CacheOp.setOp
          (lookupCacheKey env.hash mgr.meta [(r.pkName, pkToVal r.pk)])
          mgr.cache_ttl mgr.cache_version (.obj { r with stateDb := none }) ∈
          (valueEntryWrite env.hash mgr r st₁).ops := by
        rw [hvops]
        exact List.mem_append_right _ (List.mem_singleton.mpr rfl)
      have hptrmem : ∀ f ∈ mgr.cache_fields, ¬(f = "pk" ∨ f = r.pkName) →
          CacheOp.setOp (lookupCacheKey env.hash mgr.meta [(f, valueForField r f)])
            mgr.cache_ttl mgr.cache_version (.raw (pkToVal r.pk)) ∈
            (valueEntryWrite env.hash mgr r st₁).ops := by
        intro f hf hn
        obtain ⟨tv, htv⟩ := valueEntryWrite_ops_mono env.hash mgr r st₁
        rw [htv, htp]
        exact List.mem_append_left _ (List.mem_append_right _ (hmemp f hf hn))
      have hps₁ : (match
          (match (valueEntryWrite env.hash mgr r st₁).tracked r.objId with
           | none => ((none : Option PyErr), valueEntryWrite env.hash mgr r st₁)
           | some snap => staleDeletes env.hash mgr r snap mgr.cache_fields
               (valueEntryWrite env.hash mgr r st₁)) with
        | (some e, st₃) => (some e, st₃)
        | (none, st₃) => ((none : Option PyErr), cacheState mgr r st₃)) =
          (none, stF) := hps
      have hstep : ∀ x : CacheOp, x ∈ (valueEntryWrite env.hash mgr r st₁).ops →
          x ∈ stF.ops := by
        intro x hx
        rcases htr : (valueEntryWrite env.hash mgr r st₁).tracked r.objId with _ | snap
        · rw [htr] at hps₁
          have hps' : ((none : Option PyErr),
              cacheState mgr r (valueEntryWrite env.hash mgr r st₁)) = (none, stF) := hps₁
          have hstF := ((Prod.mk.injEq _ _ _ _).mp hps').2
          rw [← hstF, (cacheState_entries mgr r _).2.2]
          exact hx
        · rw [htr] at hps₁
          have hps₃ : (match staleDeletes env.hash mgr r snap mgr.cache_fields
              (valueEntryWrite env.hash mgr r st₁) with
            | (some e, st₃) => (some e, st₃)
            | (none, st₃) => ((none : Option PyErr), cacheState mgr r st₃)) =
              (none, stF) := hps₁
          rcases hsd : staleDeletes env.hash mgr r snap mgr.cache_fields
              (valueEntryWrite env.hash mgr r st₁) with ⟨e₂, st₃⟩
          rw [hsd] at hps₃
          cases e₂ with
          | some e₂ => simp at hps₃
          | none =>
            have hps' : ((none : Option PyErr), cacheState mgr r st₃) = (none, stF) := hps₃
            have hstF := ((Prod.mk.injEq _ _ _ _).mp hps').2
            rw [← hstF, (cacheState_entries mgr r st₃).2.2]
            obtain ⟨ts, hts⟩ := staleDeletes_ops_mono env.hash mgr r snap
              mgr.cache_fields (valueEntryWrite env.hash mgr r st₁)
            rw [hsd] at hts
            rw [hts]
            exact List.mem_append_left _ hx
      exact ⟨hstep _ hvalmem, fun f hf hn => hstep _ (hptrmem f hf hn)⟩

/-- Witness for C5: a miss on `slug="bar"` over an empty cache queries the
stub store, finds `orgInst`, and runs the save hook before returning it. -/
theorem C5_witness :
    emptySt.entries (lookupCacheKey hashId orgMgr.meta
      [("slug", PyVal.vstr "bar")], orgMgr.cache_version) = none ∧
    envMiss.dbGet [("slug", PyVal.vstr "bar")] = some orgInst ∧
    get_from_cache envMiss orgMgr 3 [("slug", PyVal.vstr "bar")] emptySt =
      (match post_save envMiss.hash orgMgr orgInst
          { emptySt with
            reads := emptySt.reads ++ [lookupCacheKey envMiss.hash orgMgr.meta
              [(normKey orgMgr.meta.pkName "slug", normVal (PyVal.vstr "bar"))]]
            dbCalls := emptySt.dbCalls ++ [[("slug", PyVal.vstr "bar")]] } with
       | (some e, s) => (.error e, s)
       | (none, s) => (.ok orgInst, s)) := by
  refine ⟨rfl, rfl, ?_⟩
  exact (C5_miss_queries_store_and_populates envMiss orgMgr 2 "slug"
    (PyVal.vstr "bar") emptySt (by decide) (by decide) (by rfl)).2.1 orgInst rfl

/-- C2: a cache hit on a secondary cacheable key recurses into the
primary-key path with the cached scalar, and the whole lookup performs
exactly two traced cache reads — pointer key first, then primary key. -/
theorem C2_secondary_hit_two_reads (env : Env) (mgr : BaseManager)
    (fuel : Nat) (k₀ : String) (v₀ : PyVal) (st : St) (rv : CVal)
    (hcf : mgr.cache_fields ≠ [])
    (hk : normKey mgr.meta.pkName k₀ ∈ mgr.cache_fields)
    (hne : normKey mgr.meta.pkName k₀ ≠ mgr.meta.pkName)
    (hhit : st.entries (lookupCacheKey env.hash mgr.meta
      [(normKey mgr.meta.pkName k₀, normVal v₀)], mgr.cache_version) = some rv)
    (hpk : ¬ mgr.meta.pkName.endsWith "__exact" = true) :
    get_from_cache env mgr (fuel + 2) [(k₀, v₀)] st =
      get_from_cache env mgr (fuel + 1) [(mgr.meta.pkName, cvalToPyVal rv)]
        { st with reads := st.reads ++ [lookupCacheKey env.hash mgr.meta
          [(normKey mgr.meta.pkName k₀, normVal v₀)]] } ∧
    ((get_from_cache env mgr (fuel + 2) [(k₀, v₀)] st).2).reads =
      st.reads ++ [lookupCacheKey env.hash mgr.meta
          [(normKey mgr.meta.pkName k₀, normVal v₀)],
        lookupCacheKey env.hash mgr.meta
          [(mgr.meta.pkName, normVal (cvalToPyVal rv))]] := by
  have hstep : get_from_cache env mgr (fuel + 2) [(k₀, v₀)] st =
      get_from_cache env mgr (fuel + 1) [(mgr.meta.pkName, cvalToPyVal rv)]
        { st with reads := st.reads ++ [lookupCacheKey env.hash mgr.meta
          [(normKey mgr.meta.pkName k₀, normVal v₀)]] } := by
    rw [get_from_cache_hit env mgr (fuel + 1) k₀ v₀ st rv hcf (Or.inl hk) hhit]
    unfold hitPath
    rw [if_pos hne]
  refine ⟨hstep, ?_⟩
  rw [hstep]
  rw [get_from_cache_pk_reads env mgr fuel (cvalToPyVal rv) _ hcf hpk]
  simp

/-- Witness for C2: looking up `slug="bar"` on the cache populated by the
save performs exactly the pointer read followed by the value read. -/
theorem C2_witness :
    savedSt.entries (lookupCacheKey hashId orgMgr.meta
      [("slug", PyVal.vstr "bar")], orgMgr.cache_version) =
        some (.raw (.vint 5)) ∧
    ((get_from_cache envMiss orgMgr 2 [("slug", PyVal.vstr "bar")] savedSt).2).reads =
      [lookupCacheKey hashId orgMgr.meta [("slug", PyVal.vstr "bar")],
        lookupCacheKey hashId orgMgr.meta [("id", PyVal.vint 5)]] := by
  refine ⟨rfl, ?_⟩
  exact (C2_secondary_hit_two_reads envMiss orgMgr 0 "slug" (PyVal.vstr "bar")
    savedSt (.raw (.vint 5)) (by decide) (by decide) (by decide) (by rfl)
    (by decide)).2

/-- C4: a primary-key cache hit whose value is not an instance of the model,
or whose primary key does not match the requested value, is never returned:
under `DEBUG` the lookup raises `ValueError`, otherwise it logs and falls
back to a plain (uncached) backing-store lookup. -/
theorem C4_poisoned_pk_hit_rejected (env : Env) (mgr : BaseManager)
    (fuel : Nat) (k₀ : String) (v₀ : PyVal) (st : St) (rv : CVal)
    (hcf : mgr.cache_fields ≠ [])
    (hknorm : normKey mgr.meta.pkName k₀ = mgr.meta.pkName)
    (hhit : st.entries (lookupCacheKey env.hash mgr.meta
      [(mgr.meta.pkName, normVal v₀)], mgr.cache_version) = some rv) :
    (isModelInstance mgr rv = false →
      get_from_cache env mgr (fuel + 1) [(k₀, v₀)] st =
        if env.debug = true then
          (.error .valueError, { st with reads := st.reads ++
            [lookupCacheKey env.hash mgr.meta [(mgr.meta.pkName, normVal v₀)]] })
        else plainGet env { st with reads := st.reads ++
          [lookupCacheKey env.hash mgr.meta [(mgr.meta.pkName, normVal v₀)]] }
          [(k₀, v₀)]) ∧
    (∀ inst n, rv = .obj inst → inst.modelName = mgr.meta.name →
      pyToInt (normVal v₀) = some n → inst.pk ≠ some n →
      get_from_cache env mgr (fuel + 1) [(k₀, v₀)] st =
        if env.debug = true then
          (.error .valueError, { st with reads := st.reads ++
            [lookupCacheKey env.hash mgr.meta [(mgr.meta.pkName, normVal v₀)]] })
        else plainGet env { st with reads := st.reads ++
          [lookupCacheKey env.hash mgr.meta [(mgr.meta.pkName, normVal v₀)]] }
          [(k₀, v₀)]) := by
  have hfull := get_from_cache_hit env mgr fuel k₀ v₀ st rv hcf (Or.inr hknorm)
    (by rw [hknorm]; exact hhit)
  rw [hknorm] at hfull
  constructor
  · intro hinv
    rw [hfull]
    unfold hitPath
    rw [if_neg (fun hx => hx rfl)]
    rcases rv with v' | inst
    · rfl
    · dsimp only
      have hm : inst.modelName ≠ mgr.meta.name := by
        simpa [isModelInstance] using hinv
      rw [if_pos hm]
  · intro inst n hrv hmn hpi hpk'
    subst hrv
    rw [hfull]
    unfold hitPath
    rw [if_neg (fun hx => hx rfl)]
    dsimp only
    rw [if_neg (fun hx => hx hmn), hpi]
    dsimp only
    rw [if_pos hpk']

/-- Witness for C4: with a poisoned `id=5` entry holding an instance whose
primary key is 7, the lookup (DEBUG off) falls back to the backing store. -/
theorem C4_witness :
    stPoison.entries (lookupCacheKey hashId orgMgr.meta
      [("id", PyVal.vint 5)], orgMgr.cache_version) =
        some (.obj { orgInst with pk := some 7 }) ∧
    get_from_cache envMiss orgMgr 1 [("id", PyVal.vint 5)] stPoison =
      plainGet envMiss { stPoison with reads := stPoison.reads ++
        [lookupCacheKey envMiss.hash orgMgr.meta [("id", normVal (PyVal.vint 5))]] }
        [("id", PyVal.vint 5)] := by
  refine ⟨rfl, ?_⟩
  exact (C4_poisoned_pk_hit_rejected envMiss orgMgr 0 "id" (PyVal.vint 5)
    stPoison (.obj { orgInst with pk := some 7 }) (by decide) (by decide)
    (by rfl)).2 { orgInst with pk := some 7 } 5 rfl rfl rfl (by decide)


/-! ### Dual-backend event lookup and neighbor queries -/

/-- A normalized event id is never the empty (falsy) string. -/
lemma normalize_event_id_ne_empty (s t : String)
    (h : normalize_event_id s = some t) : t ≠ "" := by
  unfold normalize_event_id at h
  simp only [] at h
  split at h
  · rename_i hcond
    injection h with h'
    intro hempty
    rw [← h'] at hempty
    rw [hempty] at hcond
    simp at hcond
  · exact absurd h (by simp)

/-- C9: the dual-backend lookup equals its specification — primary-key
attempt first for bounded numeric inputs, hex attempt only on normalization
success with a partition id and no primary-key result, first success
returned, `none` otherwise. -/
theorem C9_from_event_id_resolution (env : Env) (s : String)
    (projectId : Option Int) :
    from_event_id env s projectId = from_event_id_spec env s projectId := by
  unfold from_event_id from_event_id_spec
  by_cases hd : (isDigits s = true ∧ digitsToInt s ≤ MAX_VALUE)
  · rw [if_pos hd, if_pos hd]
    cases projectId with
    | none =>
      rcases hdb : env.dbGet [("id", PyVal.vstr s)] with _ | e
      · rcases hn : normalize_event_id s with _ | eid <;> simp [hdb, hn]
      · simp [hdb]
    | some p =>
      rcases hdb : env.dbGet [("id", PyVal.vstr s), ("project_id", PyVal.vint p)]
          with _ | e
      · rcases hn : normalize_event_id s with _ | eid
        · simp [hdb, hn]
        · simp [hdb, hn, normalize_event_id_ne_empty s eid hn]
      · rcases hn : normalize_event_id s with _ | eid <;> simp [hdb, hn]
  · rw [if_neg hd, if_neg hd]
    cases projectId with
    | none => rcases hn : normalize_event_id s with _ | eid <;> simp [hn]
    | some p =>
      rcases hn : normalize_event_id s with _ | eid
      · simp [hn]
      · simp [hn, normalize_event_id_ne_empty s eid hn]

/-- C8: neighbor lookups return `None` on a falsy reference event; against a
truthy event they query the `[event.time, now]` window ascending by
(timestamp, event_id) for next and the `[epoch, event.time]` window
descending for previous, with the caller conditions extended by the time
condition; the helper returns `None` on a query error or an empty row set and
otherwise the first row's `(project_id, event_id)` as strings; and the
time condition holds of a row exactly when the row is strictly later
(respectively strictly earlier) than the reference event in lexicographic
(timestamp, event_id) order. -/
theorem C8_neighbor_lookup (se : SnubaEnv) :
    (∀ c fk, get_next_event_id se none c fk = (none, c) ∧
      get_prev_event_id se none c fk = (none, c)) ∧
    (∀ e c fk,
      (get_next_event_id se (some e) c fk).1 =
        get_next_or_prev_event_id se
          { selected_columns := ["event_id", "project_id"], limit := 1
            referrer := "eventstore.get_next_or_prev_event_id"
            startT := e.datetime, endT := se.now
            conditions := extendedConditions c (timeConditionNext e)
            filter_keys := fk, orderby := ["timestamp", "event_id"] } ∧
      (get_prev_event_id se (some e) c fk).1 =
        get_next_or_prev_event_id se
          { selected_columns := ["event_id", "project_id"], limit := 1
            referrer := "eventstore.get_next_or_prev_event_id"
            startT := 0, endT := e.datetime
            conditions := extendedConditions c (timeConditionPrev e)
            filter_keys := fk, orderby := ["-timestamp", "-event_id"] }) ∧
    (∀ args : SnubaArgs,
      ((se.raw_query args).hasError = true →
        get_next_or_prev_event_id se args = none) ∧
      ((se.raw_query args).data = [] →
        get_next_or_prev_event_id se args = none) ∧
      (∀ row rest, (se.raw_query args).hasError = false →
        (se.raw_query args).data = row :: rest →
        get_next_or_prev_event_id se args =
          some (toString row.project_id, row.event_id))) ∧
    (∀ (e : SEvent) (row : SKey),
      evalConds row (timeConditionNext e) = true ↔
        (e.timestamp < row.timestamp ∨
          (row.timestamp = e.timestamp ∧ e.event_id < row.event_id))) ∧
    (∀ (e : SEvent) (row : SKey),
      evalConds row (timeConditionPrev e) = true ↔
        (row.timestamp < e.timestamp ∨
          (row.timestamp = e.timestamp ∧ row.event_id < e.event_id))) := by
  refine ⟨fun c fk => ⟨rfl, rfl⟩, fun e c fk => ⟨rfl, rfl⟩, ?_, ?_, ?_⟩
  · intro args
    refine ⟨?_, ?_, ?_⟩
    · intro herr
      simp [get_next_or_prev_event_id, herr]
    · intro hdata
      simp [get_next_or_prev_event_id, hdata]
    · intro row rest herr hdata
      simp [get_next_or_prev_event_id, herr, hdata]
  · intro e row
    simp only [evalConds, evalCond, evalCondAny, evalCmp, timeConditionNext,
      Bool.and_eq_true, Bool.or_eq_true, Bool.or_false, Bool.and_true,
      decide_eq_true_eq, and_true, gt_iff_lt, ge_iff_le]
    constructor
    · rintro ⟨hle, hlt | hid⟩
      · exact Or.inl hlt
      · rcases lt_or_eq_of_le hle with hx | hx
        · exact Or.inl hx
        · exact Or.inr ⟨hx.symm, hid⟩
    · rintro (hlt | ⟨heq, hid⟩)
      · exact ⟨le_of_lt hlt, Or.inl hlt⟩
      · exact ⟨le_of_eq heq.symm, Or.inr hid⟩
  · intro e row
    simp only [evalConds, evalCond, evalCondAny, evalCmp, timeConditionPrev,
      Bool.and_eq_true, Bool.or_eq_true, Bool.or_false, Bool.and_true,
      decide_eq_true_eq, and_true, gt_iff_lt, ge_iff_le]
    constructor
    · rintro ⟨hle, hlt | hid⟩
      · exact Or.inl hlt
      · rcases lt_or_eq_of_le hle with hx | hx
        · exact Or.inl hx
        · exact Or.inr ⟨hx, hid⟩
    · rintro (hlt | ⟨heq, hid⟩)
      · exact ⟨le_of_lt hlt, Or.inl hlt⟩
      · exact ⟨le_of_eq heq, Or.inr hid⟩

/-- Witness for C8 at the erroring backend: the helper returns `None`. -/
theorem C8_witness :
    (senvErr.raw_query args0).hasError = true ∧
    get_next_or_prev_event_id senvErr args0 = none := by
  refine ⟨rfl, ?_⟩
  exact ((C8_neighbor_lookup senvErr).2.2.1 args0).1 rfl

/-- Counterexample to C10 as stated: with a truthy event and a
caller-supplied *empty* conditions list, `conditions or []` rebinds to a
fresh list, so the caller's list is left unchanged — not modified in place. -/
theorem C10_counterexample :
    (get_next_event_id senvErr (some ev0) (some []) none).2 = some [] := rfl

/-- C10 (amended): with a truthy reference event and a *non-empty*
caller-supplied conditions list, both neighbor lookups extend that same list
in place with the two time-window condition entries, observably changing the
caller's list. -/
theorem C10_nonempty_conditions_extended (se : SnubaEnv) (e : SEvent)
    (c : SCond) (cs : List SCond) (fk : Option FilterKeys) :
    (get_next_event_id se (some e) (some (c :: cs)) fk).2 =
      some (c :: cs ++ timeConditionNext e) ∧
    c :: cs ++ timeConditionNext e ≠ c :: cs ∧
    (get_prev_event_id se (some e) (some (c :: cs)) fk).2 =
      some (c :: cs ++ timeConditionPrev e) ∧
    c :: cs ++ timeConditionPrev e ≠ c :: cs := by
  refine ⟨rfl, ?_, rfl, ?_⟩
  · intro hx
    have hlen := congrArg List.length hx
    simp [timeConditionNext] at hlen
  · intro hx
    have hlen := congrArg List.length hx
    simp [timeConditionPrev] at hlen

end Sentry
